import Mathlib

/-!
# Receipt points service: a shallow embedding of `main.go`

The Go program keeps a global map `receipts` from identifier strings to
`Receipt` values, allocates identifiers with `generateUuid`, and scores a
stored receipt with `calculatePoints`.

Conventions of the embedding.

* A Go `string` holding decoded JSON text is valid UTF-8; it is modelled by
  the list of its Unicode scalar values (`GoString`).  `len(s)` and `s[i]`
  are the length and the elements of `utf8Bytes s`.
* Go `int` is the 64-bit two's complement integer: every arithmetic result
  is reduced by `wrapInt`.
* Go `float64` is IEEE 754 binary64.  Every finite binary64 value is an
  integer multiple of `2^-1074`, so a finite value is stored as that integer
  (`F64.fin z` stands for `z * 2^-1074`); the sign of zero is not recorded
  (no operation used by the program distinguishes `-0` from `0`).
* The library functions `strconv.ParseFloat`, `math.Mod`, `math.Ceil`,
  `strings.TrimSpace`, `time.Parse` and `uuid.New` are modelled after the
  documented behaviour of the Go standard library and `github.com/google/uuid`.
-/

namespace Receipts

set_option exponentiation.threshold 100000

/-! ## Strings -/

/-- A Go string that holds valid UTF-8, as the list of its code points. -/
abbrev GoString := List Char

/-- UTF-8 encoding of one code point, as a list of byte values. -/
def utf8EncodeRune (c : Char) : List Nat :=
  let v := c.toNat
  if v < 0x80 then [v]
  else if v < 0x800 then [0xC0 + v / 0x40, 0x80 + v % 0x40]
  else if v < 0x10000 then [0xE0 + v / 0x1000, 0x80 + v / 0x40 % 0x40, 0x80 + v % 0x40]
  else [0xF0 + v / 0x40000, 0x80 + v / 0x1000 % 0x40, 0x80 + v / 0x40 % 0x40, 0x80 + v % 0x40]

/-- The bytes of a Go string: `s[0], s[1], ..., s[len(s)-1]`. -/
def utf8Bytes : GoString → List Nat
  | [] => []
  | c :: cs => utf8EncodeRune c ++ utf8Bytes cs

/-- Go `len(s)` for a string: the number of bytes. -/
def len (s : GoString) : Nat := (utf8Bytes s).length

/-- Code points for which `unicode.IsSpace` holds. -/
def isSpace (c : Char) : Bool :=
  let v := c.toNat
  (0x09 ≤ v && v ≤ 0x0D) || v == 0x20 || v == 0x85 || v == 0xA0 || v == 0x1680
    || (0x2000 ≤ v && v ≤ 0x200A) || v == 0x2028 || v == 0x2029 || v == 0x202F
    || v == 0x205F || v == 0x3000

/-- Library `strings.TrimSpace`: all leading and trailing white space removed. -/
def TrimSpace (s : GoString) : GoString :=
  ((s.dropWhile isSpace).reverse.dropWhile isSpace).reverse

/-- Library `strings.TrimPrefix`. -/
def TrimPrefix (s pre : GoString) : GoString :=
  if pre.isPrefixOf s then s.drop pre.length else s

/-- Library `strings.TrimSuffix`. -/
def TrimSuffix (s suf : GoString) : GoString :=
  if suf.isSuffixOf s then s.take (s.length - suf.length) else s

/-! ## Go `int` -/

/-- Reduction of a mathematical integer to the 64-bit two's complement range. -/
def wrapInt (z : Int) : Int :=
  (z + 9223372036854775808) % 18446744073709551616 - 9223372036854775808

/-- Go `a + b` on `int`. -/
def intAdd (a b : Int) : Int := wrapInt (a + b)

/-- Go `a * b` on `int`. -/
def intMul (a b : Int) : Int := wrapInt (a * b)

/-! ## Go `float64` -/

/-- IEEE 754 binary64 values; `fin z` is the finite value `z * 2^-1074`. -/
inductive F64 where
  | nan : F64
  | inf (neg : Bool) : F64
  | fin (z : Int) : F64
deriving DecidableEq, Repr

namespace F64

/-- The number of units `2^-1074` in `1.0`. -/
def one : Nat := 2 ^ 1074

/-- Number of binary digits of `n`, with `fuel` an upper bound on it. -/
def bitLenAux : Nat → Nat → Nat
  | 0, _ => 0
  | fuel + 1, n => if n = 0 then 0 else bitLenAux fuel (n / 2) + 1

/-- Number of binary digits of `n` (`0` for `n = 0`). -/
def bitLen (n : Nat) : Nat := bitLenAux n n

/-- The integer nearest to `n / d`, ties to the even one. -/
def roundHalfEven (n d : Nat) : Nat :=
  let q := n / d
  let r := n % d
  if 2 * r < d then q
  else if d < 2 * r then q + 1
  else if q % 2 = 0 then q else q + 1

/-- Magnitude, in units of `2^-1074`, of the binary64 nearest to the rational
`num / den` (`den > 0`), ties to even, before the overflow test.  With `t`
the rational in units of `2^-1074`, the spacing of binary64 values around it
is `2^s` units, where `s` is the number of binary digits of `t` beyond 53. -/
def roundMagnitude (num den : Nat) : Nat :=
  let t := num * one / den
  let s := bitLen t - 53
  roundHalfEven (num * one) (den * 2 ^ s) * 2 ^ s

/-- The binary64 nearest to the rational `± num / den` (`den > 0`), ties to
even, overflowing to an infinity from `2^1024` on: the rounding applied by
every correctly rounded operation. -/
def round (neg : Bool) (num den : Nat) : F64 :=
  let m := roundMagnitude num den
  if 2 ^ 2098 ≤ m then inf neg
  else fin (if neg then -(m : Int) else (m : Int))

/-- Go `x * y` on `float64`. -/
def mul : F64 → F64 → F64
  | nan, _ => nan
  | _, nan => nan
  | inf a, inf b => inf (a != b)
  | inf a, fin z => if z = 0 then nan else inf (a != decide (z < 0))
  | fin z, inf b => if z = 0 then nan else inf (decide (z < 0) != b)
  | fin a, fin b =>
      round (decide (a < 0) != decide (b < 0)) (a.natAbs * b.natAbs) (one * one)

/-- Library `math.Mod(x, y)`: the remainder of `x / y` with the sign of `x`,
computed exactly.  `NaN` when `x` is infinite or `NaN`, or `y` is zero or `NaN`;
`x` when `y` is infinite. -/
def mod : F64 → F64 → F64
  | nan, _ => nan
  | _, nan => nan
  | inf _, _ => nan
  | fin a, inf _ => fin a
  | fin a, fin b => if b = 0 then nan else fin (Int.tmod a b)

/-- Library `math.Ceil(x)`: the least integer value not below `x`; infinities
and `NaN` are returned unchanged. -/
def ceil : F64 → F64
  | nan => nan
  | inf s => inf s
  | fin z => fin (-((-z) / (one : Int)) * (one : Int))

/-- Go `x == 0` on `float64` (false for `NaN`). -/
def isZero : F64 → Bool
  | fin z => decide (z = 0)
  | _ => false

/-- The constant `1` as a `float64`. -/
def c1 : F64 := fin (one : Int)

/-- The constant `0.25` as a `float64`. -/
def c025 : F64 := round false 25 100

/-- The constant `0.2` as a `float64` (the binary64 nearest to 1/5). -/
def c02 : F64 := round false 2 10

end F64

/-- What the compiled program does where the Go specification leaves the
result open: the value of `int(x)` for a `float64` that is `NaN`, infinite or
outside the `int` range is implementation-dependent. -/
structure Arch where
  floatToIntOutOfRange : F64 → Int

/-- Go conversion `int(x)` of a `float64`: the fraction is discarded; a value
that does not fit is left to the implementation. -/
def floatToInt (arch : Arch) : F64 → Int
  | F64.fin z =>
      let t := Int.tdiv z (F64.one : Int)
      if -9223372036854775808 ≤ t ∧ t ≤ 9223372036854775807 then t
      else wrapInt (arch.floatToIntOutOfRange (F64.fin z))
  | x => wrapInt (arch.floatToIntOutOfRange x)

/-- The amd64 behaviour: every unrepresentable conversion gives the least `int`. -/
def amd64 : Arch := ⟨fun _ => -9223372036854775808⟩

/-! ## `strconv.ParseFloat` -/

/-- Library `lower(c)`: the byte `c | ('x' ^ 'X')`. -/
def lower (c : Nat) : Nat := c ||| 0x20

/-- Whether the byte is an ASCII decimal digit. -/
def isDigitByte (c : Nat) : Bool := '0'.toNat ≤ c && c ≤ '9'.toNat

/-- Library `commonPrefixLenIgnoreCase(s, prefix)`, `prefix` in lower case. -/
def commonPrefixLenIgnoreCase : List Nat → List Nat → Nat
  | c :: s, p :: ps =>
      let c := if 'A'.toNat ≤ c ∧ c ≤ 'Z'.toNat then c + ('a'.toNat - 'A'.toNat) else c
      if c ≠ p then 0 else commonPrefixLenIgnoreCase s ps + 1
  | _, _ => 0

/-- The `i`, `I` case of `special`: an infinity spelled `inf` or `infinity`. -/
def specialInf (neg : Bool) (nsign : Nat) (s : List Nat) : Option (F64 × Nat) :=
  let n := commonPrefixLenIgnoreCase s (utf8Bytes "infinity".toList)
  let n := if 3 < n ∧ n < 8 then 3 else n
  if n = 3 ∨ n = 8 then some (F64.inf neg, nsign + n) else none

/-- Library `special(s)`: the value and the number of bytes read when `s`
starts with an infinity or `NaN`. -/
def special (s : List Nat) : Option (F64 × Nat) :=
  match s with
  | [] => none
  | c :: rest =>
      if c = '+'.toNat ∨ c = '-'.toNat then specialInf (c == '-'.toNat) 1 rest
      else if c = 'i'.toNat ∨ c = 'I'.toNat then specialInf false 0 s
      else if c = 'n'.toNat ∨ c = 'N'.toNat then
        if commonPrefixLenIgnoreCase s (utf8Bytes "nan".toList) = 3 then some (F64.nan, 3) else none
      else none

/-- Library `underscoreOK`, the scan after the sign and base prefix: `saw` is
`'0'` after a digit or base prefix, `'_'` after an underscore, `'^'` at the
start and `'!'` otherwise. -/
def underscoreScan (hex : Bool) : List Nat → Char → Bool
  | [], saw => saw != '_'
  | c :: s, saw =>
      if isDigitByte c || (hex && 'a'.toNat ≤ lower c && lower c ≤ 'f'.toNat) then
        underscoreScan hex s '0'
      else if c = '_'.toNat then
        if saw != '0' then false else underscoreScan hex s '_'
      else if saw == '_' then false
      else underscoreScan hex s '!'

/-- Library `underscoreOK(s)`: underscores appear only between digits or
between a base prefix and a digit. -/
def underscoreOK (s : List Nat) : Bool :=
  let s := match s with
    | c :: rest => if c = '-'.toNat ∨ c = '+'.toNat then rest else s
    | [] => s
  match s with
  | a :: b :: rest =>
      if a = '0'.toNat ∧ (lower b = 'b'.toNat ∨ lower b = 'o'.toNat ∨ lower b = 'x'.toNat) then
        underscoreScan (lower b == 'x'.toNat) rest '0'
      else underscoreScan false s '^'
  | _ => underscoreScan false s '^'

/-- State of the digit loop of `readFloat`.  The mantissa is kept in full
(the library keeps 19 digits and goes back to the text when there are more,
to the same correctly rounded result). -/
structure Digits where
  sawdot : Bool
  sawdigits : Bool
  underscores : Bool
  nd : Nat
  dp : Int
  mantissa : Nat

/-- The digit loop of `readFloat`: returns the state and the unread bytes. -/
def readDigits (hex : Bool) : List Nat → Digits → Digits × List Nat
  | [], st => (st, [])
  | c :: s, st =>
      if c = '_'.toNat then readDigits hex s { st with underscores := true }
      else if c = '.'.toNat then
        if st.sawdot then (st, c :: s)
        else readDigits hex s { st with sawdot := true, dp := st.nd }
      else if isDigitByte c then
        if c = '0'.toNat ∧ st.nd = 0 then
          readDigits hex s { st with sawdigits := true, dp := st.dp - 1 }
        else
          readDigits hex s { st with
            sawdigits := true, nd := st.nd + 1,
            mantissa := st.mantissa * (if hex then 16 else 10) + (c - '0'.toNat) }
      else if hex ∧ 'a'.toNat ≤ lower c ∧ lower c ≤ 'f'.toNat then
        readDigits hex s { st with
          sawdigits := true, nd := st.nd + 1,
          mantissa := st.mantissa * 16 + (lower c - 'a'.toNat + 10) }
      else (st, c :: s)

/-- The exponent digit loop of `readFloat`: the exponent stops growing once it
has reached 10000. -/
def readExponent : List Nat → Nat → Bool → Nat × Bool × List Nat
  | [], e, us => (e, us, [])
  | c :: s, e, us =>
      if c = '_'.toNat then readExponent s e true
      else if isDigitByte c then
        readExponent s (if e < 10000 then e * 10 + (c - '0'.toNat) else e) us
      else (e, us, c :: s)

/-- Result of a successful `readFloat`: the number is
`± mantissa * 10^exp` (`± mantissa * 2^exp` when `hex`), read from the first
`n` bytes. -/
structure Number where
  neg : Bool
  hex : Bool
  mantissa : Nat
  exp : Int
  n : Nat
deriving DecidableEq, Repr

/-- The end of `readFloat`: the underscore check and the result. -/
def readFloatFinish (s : List Nat) (neg hex : Bool) (st : Digits) (dp : Int) (underscores : Bool)
    (unread : List Nat) : Option Number :=
  let n := s.length - unread.length
  let ndMant : Int := if hex then st.nd * 4 else st.nd
  if underscores ∧ ¬ underscoreOK (s.take n) then none
  else some ⟨neg, hex, st.mantissa, if st.mantissa ≠ 0 then dp - ndMant else 0, n⟩

/-- Library `readFloat(s)`: sign, optional `0x`, digits with at most one
point, optional exponent (`e`, or the mandatory `p` of a hexadecimal
mantissa).  `none` is the library's `ok = false`. -/
def readFloat (s : List Nat) : Option Number :=
  match s with
  | [] => none
  | c0 :: rest0 =>
      let neg := c0 == '-'.toNat
      let s1 := if c0 = '+'.toNat ∨ c0 = '-'.toNat then rest0 else s
      let hex := match s1 with
        | a :: b :: _ :: _ => a == '0'.toNat && lower b == 'x'.toNat
        | _ => false
      let s2 := if hex then s1.drop 2 else s1
      let (st, s3) := readDigits hex s2 ⟨false, false, false, 0, 0, 0⟩
      if ¬ st.sawdigits then none
      else
        let dp : Int := if st.sawdot then st.dp else st.nd
        let dp : Int := if hex then dp * 4 else dp
        let expChar := if hex then 'p'.toNat else 'e'.toNat
        match s3 with
        | c :: s4 =>
            if lower c = expChar then
              match s4 with
              | [] => none
              | sg :: s5 =>
                  let esign : Int := if sg = '-'.toNat then -1 else 1
                  let s6 := if sg = '+'.toNat ∨ sg = '-'.toNat then s5 else s4
                  match s6 with
                  | [] => none
                  | d :: _ =>
                      if ¬ isDigitByte d then none
                      else
                        let (e, us, s7) := readExponent s6 0 st.underscores
                        readFloatFinish s neg hex st (dp + e * esign) us s7
            else if hex then none
            else readFloatFinish s neg hex st dp st.underscores s3
        | [] =>
            if hex then none
            else readFloatFinish s neg hex st dp st.underscores s3

/-- The binary64 nearest to the number read. -/
def Number.value (x : Number) : F64 :=
  let b := if x.hex then 2 else 10
  if 0 ≤ x.exp then F64.round x.neg (x.mantissa * b ^ x.exp.toNat) 1
  else F64.round x.neg x.mantissa (b ^ (-x.exp).toNat)

/-- The two errors of `strconv.ParseFloat`. -/
inductive NumError where
  | ErrSyntax
  | ErrRange
deriving DecidableEq, Repr

/-- Library `strconv.ParseFloat(s, 64)`: the value and the error (`none` is
Go's `nil`).  A text that is not a number gives `0` and `ErrSyntax`; a number
too large for binary64 gives an infinity and `ErrRange`. -/
def ParseFloat (s : GoString) : F64 × Option NumError :=
  let b := utf8Bytes s
  match special b with
  | some (v, n) => if n = b.length then (v, none) else (F64.fin 0, some NumError.ErrSyntax)
  | none =>
      match readFloat b with
      | none => (F64.fin 0, some NumError.ErrSyntax)
      | some x =>
          if x.n ≠ b.length then (F64.fin 0, some NumError.ErrSyntax)
          else
            match x.value with
            | F64.inf neg => (F64.inf neg, some NumError.ErrRange)
            | v => (v, none)

/-! ## `time.Parse` with the layouts `2006-01-02` and `15:04` -/

/-- The fields of a `time.Time` read by the program (always in UTC). -/
structure Time where
  year : Nat
  month : Nat
  day : Nat
  hour : Nat
  minute : Nat
deriving DecidableEq, Repr

/-- The zero `time.Time{}` returned with every parse error:
January 1, year 1, 00:00 UTC. -/
def Time.zero : Time := ⟨1, 1, 1, 0, 0⟩

/-- Library `Time.Day()`. -/
def Time.Day (t : Time) : Int := t.day

/-- Library `Time.Hour()`. -/
def Time.Hour (t : Time) : Int := t.hour

/-- Library `getnum(s, fixed)`: one or two leading digits (exactly two when
`fixed`), with the unread bytes. -/
def getnum (s : List Nat) (fixed : Bool) : Option (Nat × List Nat) :=
  match s with
  | [] => none
  | a :: rest =>
      if ¬ isDigitByte a then none
      else
        match rest with
        | b :: rest2 =>
            if isDigitByte b then some ((a - '0'.toNat) * 10 + (b - '0'.toNat), rest2)
            else if fixed then none
            else some (a - '0'.toNat, rest)
        | [] => if fixed then none else some (a - '0'.toNat, rest)

/-- Library `isLeap(year)`. -/
def isLeap (year : Nat) : Bool := year % 4 == 0 && (year % 100 != 0 || year % 400 == 0)

/-- Library `daysIn(m, year)`. -/
def daysIn (m year : Nat) : Nat :=
  if m = 2 ∧ isLeap year then 29
  else [31, 28, 31, 30, 31, 30, 31, 31, 30, 31, 30, 31].getD (m - 1) 0

/-- Library `time.Parse("2006-01-02", value)`: four year digits, `-`, two
month digits in 1..12, `-`, two day digits forming a day of that month, and
nothing after; `none` is a non-nil error. -/
def parseDate (value : GoString) : Option Time :=
  match utf8Bytes value with
  | y1 :: y2 :: y3 :: y4 :: rest =>
      if ¬ (isDigitByte y1 ∧ isDigitByte y2 ∧ isDigitByte y3 ∧ isDigitByte y4) then none
      else
        let year := (y1 - '0'.toNat) * 1000 + (y2 - '0'.toNat) * 100
          + (y3 - '0'.toNat) * 10 + (y4 - '0'.toNat)
        match rest with
        | dash1 :: rest =>
            if dash1 ≠ '-'.toNat then none
            else
              match getnum rest true with
              | none => none
              | some (month, rest) =>
                  if month = 0 ∨ 12 < month then none
                  else
                    match rest with
                    | dash2 :: rest =>
                        if dash2 ≠ '-'.toNat then none
                        else
                          match getnum rest true with
                          | none => none
                          | some (day, rest) =>
                              if rest ≠ [] then none
                              else if day < 1 ∨ daysIn month year < day then none
                              else some ⟨year, month, day, 0, 0⟩
                    | [] => none
        | [] => none
  | _ => none

/-- Library `time.Parse("15:04", value)`: one or two hour digits below 24, `:`,
two minute digits below 60, and nothing after; the date is January 1, year 0. -/
def parseClock (value : GoString) : Option Time :=
  match getnum (utf8Bytes value) false with
  | none => none
  | some (hour, rest) =>
      if 24 ≤ hour then none
      else
        match rest with
        | colon :: rest =>
            if colon ≠ ':'.toNat then none
            else
              match getnum rest true with
              | none => none
              | some (min, rest) =>
                  if 60 ≤ min then none
                  else if rest ≠ [] then none
                  else some ⟨0, 1, 1, hour, min⟩
        | [] => none

/-- The value the program keeps from `time.Parse`, the error being dropped. -/
def timeOrZero (t : Option Time) : Time := t.getD Time.zero

/-! ## `uuid.New().String()` -/

/-- Lower-case hexadecimal digit of a value below 16. -/
def hexDigit (n : Nat) : Char := "0123456789abcdef".toList.getD n '0'

/-- Two hexadecimal digits of byte `i` (0 is the most significant) of the
128-bit value `u`, after `or`-ing in the version and variant bits. -/
def uuidByte (u i : Nat) : List Char :=
  let b := u / 256 ^ (15 - i) % 256
  let b := if i = 6 then b % 16 + 0x40 else if i = 8 then b % 64 + 0x80 else b
  [hexDigit (b / 16), hexDigit (b % 16)]

/-- Library `uuid.New().String()` for the 128 random bits `u`: version 4,
variant 10, printed as `xxxxxxxx-xxxx-xxxx-xxxx-xxxxxxxxxxxx`. -/
def uuidString (u : Nat) : GoString :=
  uuidByte u 0 ++ uuidByte u 1 ++ uuidByte u 2 ++ uuidByte u 3 ++ ['-']
    ++ uuidByte u 4 ++ uuidByte u 5 ++ ['-']
    ++ uuidByte u 6 ++ uuidByte u 7 ++ ['-']
    ++ uuidByte u 8 ++ uuidByte u 9 ++ ['-']
    ++ uuidByte u 10 ++ uuidByte u 11 ++ uuidByte u 12 ++ uuidByte u 13
    ++ uuidByte u 14 ++ uuidByte u 15

/-! ## The program -/

/-- Go `type Item struct`. -/
structure Item where
  ShortDescription : GoString
  Price : GoString
deriving DecidableEq, Repr

/-- Go `type Receipt struct`. -/
structure Receipt where
  Retailer : GoString
  PurchaseDate : GoString
  PurchaseTime : GoString
  Items : List Item
  Total : GoString
deriving DecidableEq, Repr

/-- Go `var receipts = make(map[string]Receipt)`: the bindings of the map,
one per key. -/
abbrev Registry := List (GoString × Receipt)

/-- Go `receipt, exists := receipts[id]`. -/
def Registry.get (receipts : Registry) (id : GoString) : Option Receipt :=
  match receipts with
  | [] => none
  | (k, v) :: rest => if id = k then some v else Registry.get rest id

/-- Go `receipts[id] = receipt`: the binding of `id` is replaced or added. -/
def Registry.set (receipts : Registry) (id : GoString) (receipt : Receipt) : Registry :=
  match receipts with
  | [] => [(id, receipt)]
  | (k, v) :: rest =>
      if id = k then (k, receipt) :: rest else (k, v) :: Registry.set rest id receipt

/-- Go `generateUuid`.  `draws` are the 128-bit values that successive calls of
`uuid.New()` produce; the loop ends at the first one whose string is not a
key of `receipts`.  `none`: every listed draw collided, the loop is still
running. -/
def generateUuid (receipts : Registry) : List Nat → Option (GoString × List Nat)
  | [] => none
  | u :: draws =>
      let newUuid := uuidString u
      if (receipts.get newUuid).isSome then generateUuid receipts draws
      else some (newUuid, draws)

/-- The membership loops of Go `isAlphanumeric`, for one of the two slices. -/
def containsByte (char : Nat) : List Nat → Bool
  | [] => false
  | letter :: rest => if char = letter then true else containsByte char rest

/-- Go `isAlphanumeric(char, alphabet, numbers)`. -/
def isAlphanumeric (char : Nat) (alphabet numbers : List Nat) : Bool :=
  if containsByte char alphabet then true
  else if containsByte char numbers then true
  else false

/-- The slice `alphabet` of `calculatePoints`. -/
def alphabet : List Nat :=
  "abcdefghijklmnopqrstuvwxyzABCDEFGHIJKLMNOPQRSTUVWXYZ".toList.map Char.toNat

/-- The slice `numbers` of `calculatePoints`. -/
def numbers : List Nat := "0123456789".toList.map Char.toNat

/-- The first loop of `calculatePoints`, over the bytes of the retailer not
yet visited. -/
def retailerLoop : List Nat → Int → Int
  | [], points => points
  | char :: rest, points =>
      if isAlphanumeric char alphabet numbers then retailerLoop rest (intAdd points 1)
      else retailerLoop rest points

/-- What one iteration of the items loop adds to `points`. -/
def itemPoints (arch : Arch) (item : Item) : Int :=
  let descLength : Int := len (TrimSpace item.ShortDescription)
  if descLength % 3 = 0 then
    let price := (ParseFloat item.Price).1
    floatToInt arch (F64.ceil (F64.mul price F64.c02))
  else 0

/-- The items loop of `calculatePoints`. -/
def itemsLoop (arch : Arch) : List Item → Int → Int
  | [], points => points
  | item :: rest, points =>
      let descLength : Int := len (TrimSpace item.ShortDescription)
      if descLength % 3 = 0 then
        let price := (ParseFloat item.Price).1
        itemsLoop arch rest (intAdd points (floatToInt arch (F64.ceil (F64.mul price F64.c02))))
      else itemsLoop arch rest points

/-- Go `calculatePoints`. -/
def calculatePoints (arch : Arch) (receipt : Receipt) : Int :=
  let points : Int := 0
  let points := retailerLoop (utf8Bytes receipt.Retailer) points
  let total := (ParseFloat receipt.Total).1
  let points := if (F64.mod total F64.c1).isZero then intAdd points 50 else points
  let points := if (F64.mod total F64.c025).isZero then intAdd points 25 else points
  let points := intAdd points (intMul (receipt.Items.length / 2 : Nat) 5)
  let points := itemsLoop arch receipt.Items points
  let purchaseDate := timeOrZero (parseDate receipt.PurchaseDate)
  let points := if purchaseDate.Day % 2 ≠ 0 then intAdd points 6 else points
  let purchaseTime := timeOrZero (parseClock receipt.PurchaseTime)
  let points :=
    if purchaseTime.Hour ≥ 14 ∧ purchaseTime.Hour < 16 then intAdd points 10 else points
  points

/-- An HTTP request as the handlers read it: the method, the URL path and the
outcome of decoding the body as a `Receipt` (`none`: the decoder failed). -/
structure Request where
  Method : GoString
  Path : GoString
  Body : Option Receipt

/-- What a handler writes: an error with its status code, or one of the two
JSON responses. -/
inductive Response where
  | Error (message : String) (code : Nat)
  | ReceiptResponse (ID : GoString)
  | PointsResponse (Points : Int)
deriving DecidableEq, Repr

/-- Go `processReceiptHandler`: the response, the new map and the unused
draws; `none` while `generateUuid` has not returned. -/
def processReceiptHandler (receipts : Registry) (draws : List Nat) (r : Request) :
    Option (Response × Registry × List Nat) :=
  if r.Method ≠ "POST".toList then
    some (Response.Error "Only POST method is allowed" 405, receipts, draws)
  else
    match r.Body with
    | none => some (Response.Error "Invalid receipt format" 400, receipts, draws)
    | some receipt =>
        match generateUuid receipts draws with
        | none => none
        | some (receiptId, draws) =>
            some (Response.ReceiptResponse receiptId, receipts.set receiptId receipt, draws)

/-- Go `getPointsHandler`: the response and the map after the call. -/
def getPointsHandler (arch : Arch) (receipts : Registry) (r : Request) : Response × Registry :=
  if r.Method ≠ "GET".toList then
    (Response.Error "Only GET method is allowed" 405, receipts)
  else
    let id := TrimSuffix (TrimPrefix r.Path "/receipts/".toList) "/points".toList
    if id = [] then (Response.Error "Receipt ID is required" 400, receipts)
    else
      match receipts.get id with
      | none => (Response.Error "No receipt found for that ID" 404, receipts)
      | some receipt => (Response.PointsResponse (calculatePoints arch receipt), receipts)

/-! ## The seven contributions -/

/-- Rule 1: what the retailer loop adds, starting from `points = 0`. -/
def retailerPoints (retailer : GoString) : Int := retailerLoop (utf8Bytes retailer) 0

/-- Rule 2: what `if math.Mod(total, 1) == 0 { points += 50 }` adds. -/
def roundDollarPoints (total : GoString) : Int :=
  if (F64.mod (ParseFloat total).1 F64.c1).isZero then 50 else 0

/-- Rule 3: what `if math.Mod(total, 0.25) == 0 { points += 25 }` adds. -/
def quarterPoints (total : GoString) : Int :=
  if (F64.mod (ParseFloat total).1 F64.c025).isZero then 25 else 0

/-- Rule 4: the Go value `len(receipt.Items) / 2 * 5` for `n` items. -/
def pairPoints (n : Nat) : Int := intMul (n / 2 : Nat) 5

/-- Rule 6: what `if purchaseDate.Day()%2 != 0 { points += 6 }` adds. -/
def oddDayPoints (purchaseDate : GoString) : Int :=
  if (timeOrZero (parseDate purchaseDate)).Day % 2 ≠ 0 then 6 else 0

/-- Rule 7: what the test on `purchaseTime.Hour()` adds. -/
def afternoonPoints (purchaseTime : GoString) : Int :=
  if (timeOrZero (parseClock purchaseTime)).Hour ≥ 14 ∧ (timeOrZero (parseClock purchaseTime)).Hour < 16
  then 10 else 0

/-- The seven contributions added as mathematical integers. -/
def contributionSum (arch : Arch) (receipt : Receipt) : Int :=
  retailerPoints receipt.Retailer + roundDollarPoints receipt.Total + quarterPoints receipt.Total
    + pairPoints receipt.Items.length + (receipt.Items.map (itemPoints arch)).sum
    + oddDayPoints receipt.PurchaseDate + afternoonPoints receipt.PurchaseTime

/-- The number of bytes for which `isAlphanumeric` holds. -/
def alnumCount (bytes : List Nat) : Nat :=
  (bytes.filter (fun b => isAlphanumeric b alphabet numbers)).length

/-! ## Inputs used in the examples, and conditions on inputs -/

/-- The receipt of the retailer `Target` from the README of the exercise. -/
def targetReceipt : Receipt :=
  { Retailer := "Target".toList, PurchaseDate := "2022-01-01".toList,
    PurchaseTime := "13:01".toList,
    Items := [⟨"Mountain Dew 12PK".toList, "6.49".toList⟩,
      ⟨"Emils Cheese Pizza".toList, "12.25".toList⟩,
      ⟨"Knorr Creamy Chicken".toList, "1.26".toList⟩,
      ⟨"Doritos Nacho Cheese".toList, "3.35".toList⟩,
      ⟨"   Klarbrunn 12-PK 12 FL OZ  ".toList, "12.00".toList⟩],
    Total := "35.35".toList }

/-- A receipt with one item of negative price. -/
def refundReceipt : Receipt :=
  { Retailer := "Target".toList, PurchaseDate := "2022-01-02".toList,
    PurchaseTime := "13:01".toList,
    Items := [⟨"Refund".toList, "-1000.00".toList⟩],
    Total := "-1000.00".toList }

/-- Two bounds that hold of every receipt in memory: `len` of a string is an
`int`, and a slice of items (32 bytes each) fits in a 64-bit address space. -/
def Receipt.InMemory (receipt : Receipt) : Prop :=
  len receipt.Retailer ≤ 9223372036854775807 ∧ 32 * receipt.Items.length < 2 ^ 64

instance (receipt : Receipt) : Decidable receipt.InMemory := by
  unfold Receipt.InMemory; infer_instance

/-- Whether the items loop adds something for the item: the trimmed
description length is a multiple of 3. -/
def scoredByRule5 (item : Item) : Bool :=
  ((len (TrimSpace item.ShortDescription) : Nat) : Int) % 3 == 0

/-- The price text parses to a finite value between 0 and 10^18 (a text that
is not a number parses to 0). -/
def priceInRange (price : GoString) : Bool :=
  match (ParseFloat price).1 with
  | F64.fin z => decide (0 ≤ z) && decide (z ≤ ((10 ^ 18 * F64.one : Nat) : Int))
  | _ => false

/-- The request a client sends to redeem `id`: `GET /receipts/{id}/points`. -/
def redeemRequest (id : GoString) : Request :=
  ⟨"GET".toList, "/receipts/".toList ++ id ++ "/points".toList, none⟩

/-- The request a client sends to submit `receipt`. -/
def submitRequest (receipt : Receipt) : Request :=
  ⟨"POST".toList, "/receipts/process".toList, some receipt⟩

/-- A sequence of submissions, each with the draws `uuid.New()` yields while it
is served: the identifiers returned, in order, and the map afterwards.
`none` when one of the calls has not returned. -/
def submitAll (receipts : Registry) : List (Receipt × List Nat) → Option (List GoString × Registry)
  | [] => some ([], receipts)
  | (receipt, draws) :: rest =>
      match processReceiptHandler receipts draws (submitRequest receipt) with
      | some (Response.ReceiptResponse id, receipts1, _) =>
          match submitAll receipts1 rest with
          | some (ids, final) => some (id :: ids, final)
          | none => none
      | _ => none

/-- Two submissions; the second one first draws the identifier of the first. -/
def exampleSubmissions : List (Receipt × List Nat) :=
  [(targetReceipt, [7, 7]), (refundReceipt, [7, 9])]

/-- A further submission, served after two collisions. -/
def exampleLater : List (Receipt × List Nat) := [(targetReceipt, [9, 7, 11])]

/-- The map after `exampleSubmissions`. -/
def exampleRegistry : Registry := [(uuidString 7, targetReceipt), (uuidString 9, refundReceipt)]

/-- The characters rule 1 counts, in the words of the specification: an
ASCII letter `a`-`z`, `A`-`Z` or an ASCII digit `0`-`9`. -/
def isAsciiLetterOrDigit (c : Char) : Bool :=
  ('a'.toNat ≤ c.toNat && c.toNat ≤ 'z'.toNat) || ('A'.toNat ≤ c.toNat && c.toNat ≤ 'Z'.toNat)
    || ('0'.toNat ≤ c.toNat && c.toNat ≤ '9'.toNat)

/-- `ParseFloat` reads the whole text `s` as the decimal number `x`: the text
is not an infinity or `NaN`, `readFloat` accepts all of it, and the mantissa
is not hexadecimal.  The number written is `± x.mantissa * 10^x.exp` exactly. -/
def readsAsDecimal (s : GoString) (x : Number) : Prop :=
  special (utf8Bytes s) = none ∧ readFloat (utf8Bytes s) = some x
    ∧ x.n = (utf8Bytes s).length ∧ x.hex = false

instance (s : GoString) (x : Number) : Decidable (readsAsDecimal s x) := by
  unfold readsAsDecimal; infer_instance

/-- The decimal number `mantissa * 10^exp` has zero fractional part. -/
def Number.isWhole (x : Number) : Bool :=
  decide (0 ≤ x.exp) || decide (10 ^ (-x.exp).toNat ∣ x.mantissa)

/-- The decimal number `mantissa * 10^exp` is a multiple of 0.25: four times
the number has zero fractional part. -/
def Number.isQuarterMultiple (x : Number) : Bool :=
  decide (0 ≤ x.exp) || decide (10 ^ (-x.exp).toNat ∣ x.mantissa * 4)

/-- The `float64` is finite with zero fractional part. -/
def F64.isWhole : F64 → Bool
  | F64.fin z => decide (((2 ^ 1074 : Nat) : Int) ∣ z)
  | _ => false

/-- The `float64` is finite and a multiple of 0.25. -/
def F64.isQuarterMultiple : F64 → Bool
  | F64.fin z => decide (((2 ^ 1072 : Nat) : Int) ∣ z)
  | _ => false

/-- The decimal digit `d` as a character. -/
def digitChar (d : Nat) : Char := Char.ofNat (48 + d)

/-- The text `YYYY-MM-DD` of a date. -/
def formatDate (year month day : Nat) : GoString :=
  [digitChar (year / 1000 % 10), digitChar (year / 100 % 10), digitChar (year / 10 % 10),
    digitChar (year % 10), '-', digitChar (month / 10 % 10), digitChar (month % 10), '-',
    digitChar (day / 10 % 10), digitChar (day % 10)]

/-- A date of the calendar that has a text `YYYY-MM-DD`: a year of four
digits, a month from 1 to 12 and a day of that month. -/
def isCalendarDate (year month day : Nat) : Prop :=
  year ≤ 9999 ∧ 1 ≤ month ∧ month ≤ 12 ∧ 1 ≤ day ∧ day ≤ daysIn month year

instance (year month day : Nat) : Decidable (isCalendarDate year month day) := by
  unfold isCalendarDate; infer_instance

/-- An item whose price is beyond the `int` range. -/
def hugePriceItem : Item := ⟨"abc".toList, "1e30".toList⟩

/-- An item whose price is an `int` of 17 digits. -/
def longPriceItem : Item := ⟨"abc".toList, "22517998136852496".toList⟩

/-- A receipt whose six items each contribute 1800000000000000000 points. -/
def overflowReceipt : Receipt :=
  { Retailer := "".toList, PurchaseDate := "2022-01-02".toList,
    PurchaseTime := "13:01".toList,
    Items := List.replicate 6 ⟨"abc".toList, "9e18".toList⟩,
    Total := "0.10".toList }

/-- The number a successful `readFloat` has read, exactly, as a rational:
`± mantissa * 10^exp` (`± mantissa * 2^exp` when `hex`). -/
def Number.toRat (x : Number) : ℚ :=
  (if x.neg then -1 else 1) * (x.mantissa : ℚ) * (if x.hex then 2 else 10) ^ x.exp

/-- The text `HH:MM` of a time of day. -/
def formatClock (hour minute : Nat) : GoString :=
  [digitChar (hour / 10 % 10), digitChar (hour % 10), ':', digitChar (minute / 10 % 10),
    digitChar (minute % 10)]

/-- The `Target` receipt with its first two items exchanged. -/
def targetReceiptSwapped : Receipt :=
  { targetReceipt with
    Items := [⟨"Emils Cheese Pizza".toList, "12.25".toList⟩,
      ⟨"Mountain Dew 12PK".toList, "6.49".toList⟩,
      ⟨"Knorr Creamy Chicken".toList, "1.26".toList⟩,
      ⟨"Doritos Nacho Cheese".toList, "3.35".toList⟩,
      ⟨"   Klarbrunn 12-PK 12 FL OZ  ".toList, "12.00".toList⟩] }

/-- A call of `processReceiptHandler` on a well-formed POST request, at one of
its three points: before line 80 (`draws` is what `uuid.New()` will yield to
its `generateUuid`), between lines 80 and 81 (`receiptId` is computed and not
yet stored), and after line 81. -/
inductive Submission where
  | called (receipt : Receipt) (draws : List Nat)
  | allocated (receipt : Receipt) (receiptId : GoString)
  | stored (receiptId : GoString)
deriving DecidableEq, Repr

/-- The next statement of a submission, run on the shared map: line 80,
`receiptId := generateUuid()`, or line 81, `receipts[receiptId] = receipt`.
The program takes no lock, so statements of other calls can run between the
two.  Each statement is taken as one indivisible step. -/
def Submission.step (receipts : Registry) : Submission → Submission × Registry
  | Submission.called receipt draws =>
      match generateUuid receipts draws with
      | some (receiptId, _) => (Submission.allocated receipt receiptId, receipts)
      | none => (Submission.called receipt draws, receipts)
  | Submission.allocated receipt receiptId =>
      (Submission.stored receiptId, receipts.set receiptId receipt)
  | Submission.stored receiptId => (Submission.stored receiptId, receipts)

/-- Concurrent calls under a schedule: each entry of the schedule names the
call that runs its next statement. -/
def runSchedule : Registry → List Submission → List Nat → Registry × List Submission
  | receipts, calls, [] => (receipts, calls)
  | receipts, calls, i :: schedule =>
      match calls.get? i with
      | some call =>
          runSchedule (call.step receipts).2 (calls.set i (call.step receipts).1) schedule
      | none => runSchedule receipts calls schedule

/-- Two concurrent submissions to which `uuid.New()` yields the same value. -/
def collidingSubmissions : List Submission :=
  [Submission.called targetReceipt [7], Submission.called refundReceipt [7]]

/-- The schedule that serves `n` calls one after the other, starting with the
call of index `k`: each call runs its two statements with nothing between. -/
def serialSchedule : Nat → Nat → List Nat
  | _, 0 => []
  | k, n + 1 => k :: k :: serialSchedule (k + 1) n

/-! ## Lemmas on `int` arithmetic and the two loops -/

theorem wrapInt_wrapInt_add (a b : Int) : wrapInt (wrapInt a + b) = wrapInt (a + b) := by
  unfold wrapInt; omega

theorem wrapInt_idem (a : Int) : wrapInt (wrapInt a) = wrapInt a := by
  unfold wrapInt; omega

theorem wrapInt_add_wrapInt (a b : Int) : wrapInt (a + wrapInt b) = wrapInt (a + b) := by
  unfold wrapInt; omega

theorem wrapInt_eq_self {z : Int} (h1 : -9223372036854775808 ≤ z) (h2 : z ≤ 9223372036854775807) :
    wrapInt z = z := by
  unfold wrapInt; omega

theorem wrapInt_bounds (z : Int) :
    -9223372036854775808 ≤ wrapInt z ∧ wrapInt z ≤ 9223372036854775807 := by
  unfold wrapInt; omega

theorem retailerLoop_eq (bytes : List Nat) (p : Int) :
    retailerLoop bytes (wrapInt p) = wrapInt (p + alnumCount bytes) := by
  induction bytes generalizing p with
  | nil => simp [retailerLoop, alnumCount]
  | cons b bs ih =>
      by_cases hb : isAlphanumeric b alphabet numbers = true
      · have h1 : alnumCount (b :: bs) = alnumCount bs + 1 := by
          simp [alnumCount, List.filter_cons, hb]
        simp only [retailerLoop, hb, if_true, intAdd, wrapInt_wrapInt_add, ih, h1]
        congr 1; push_cast; ring
      · have h1 : alnumCount (b :: bs) = alnumCount bs := by
          simp [alnumCount, List.filter_cons, hb]
        simp only [retailerLoop, hb, ih, h1]
        simp

theorem retailerPoints_eq (retailer : GoString) :
    retailerPoints retailer = wrapInt (alnumCount (utf8Bytes retailer)) := by
  have h := retailerLoop_eq (utf8Bytes retailer) 0
  have h0 : wrapInt 0 = 0 := by decide
  rw [h0] at h
  simpa [retailerPoints] using h

theorem itemsLoop_eq (arch : Arch) (items : List Item) (p : Int) :
    itemsLoop arch items (wrapInt p) = wrapInt (p + (items.map (itemPoints arch)).sum) := by
  induction items generalizing p with
  | nil => simp [itemsLoop]
  | cons it rest ih =>
      by_cases h : ((len (TrimSpace it.ShortDescription) : Nat) : Int) % 3 = 0
      · simp only [itemsLoop, itemPoints, h, if_true, intAdd, wrapInt_wrapInt_add, ih,
          List.map_cons, List.sum_cons]
        congr 1; ring
      · simp only [itemsLoop, itemPoints, h, if_false, ih, List.map_cons, List.sum_cons]
        congr 1; ring

theorem ite_intAdd_eq (c : Prop) [Decidable c] (p q k : Int) (hq : q = wrapInt p) :
    (if c then intAdd q k else q) = wrapInt (p + if c then k else 0) := by
  subst hq
  by_cases hc : c <;> simp [hc, intAdd, wrapInt_wrapInt_add]

/-- The value of `calculatePoints` is the 64-bit reduction of the sum of the
seven contributions. -/
theorem calculatePoints_eq_wrap (arch : Arch) (receipt : Receipt) :
    calculatePoints arch receipt = wrapInt (contributionSum arch receipt) := by
  unfold calculatePoints
  lift_lets
  intro p0 p1 total p2 p3 p4 p5 purchaseDate p6 purchaseTime p7
  have e1 : p1 = wrapInt (retailerPoints receipt.Retailer) := by
    show retailerLoop (utf8Bytes receipt.Retailer) 0 = _
    rw [retailerPoints_eq, wrapInt_idem]
    exact (retailerPoints_eq receipt.Retailer)
  have e2 : p2 = wrapInt (retailerPoints receipt.Retailer + roundDollarPoints receipt.Total) :=
    ite_intAdd_eq _ _ _ _ e1
  have e3 : p3 = wrapInt (retailerPoints receipt.Retailer + roundDollarPoints receipt.Total
      + quarterPoints receipt.Total) := ite_intAdd_eq _ _ _ _ e2
  have e4 : p4 = wrapInt (retailerPoints receipt.Retailer + roundDollarPoints receipt.Total
      + quarterPoints receipt.Total + pairPoints receipt.Items.length) := by
    show intAdd p3 _ = _
    rw [e3]
    simp only [intAdd, pairPoints, wrapInt_wrapInt_add]
  have e5 : p5 = wrapInt (retailerPoints receipt.Retailer + roundDollarPoints receipt.Total
      + quarterPoints receipt.Total + pairPoints receipt.Items.length
      + (receipt.Items.map (itemPoints arch)).sum) := by
    show itemsLoop arch receipt.Items p4 = _
    rw [e4, itemsLoop_eq]
  have e6 : p6 = wrapInt (retailerPoints receipt.Retailer + roundDollarPoints receipt.Total
      + quarterPoints receipt.Total + pairPoints receipt.Items.length
      + (receipt.Items.map (itemPoints arch)).sum + oddDayPoints receipt.PurchaseDate) :=
    ite_intAdd_eq _ _ _ _ e5
  exact ite_intAdd_eq _ _ _ _ e6

/-! ## Lemmas on rounding -/

namespace F64

theorem bitLenAux_pos {fuel n : Nat} (h0 : n ≠ 0) (hf : n ≤ fuel) : 1 ≤ bitLenAux fuel n := by
  cases fuel with
  | zero => omega
  | succ f => simp [bitLenAux, h0]

theorem two_pow_bitLenAux_le (fuel : Nat) : ∀ n, n ≠ 0 → n ≤ fuel →
    2 ^ (bitLenAux fuel n - 1) ≤ n := by
  induction fuel with
  | zero => intro n h0 hf; omega
  | succ f ih =>
      intro n h0 hf
      simp only [bitLenAux, h0, if_false, Nat.add_sub_cancel]
      by_cases h2 : n / 2 = 0
      · cases f <;> simp [bitLenAux, h2] <;> omega
      · have hle : n / 2 ≤ f := by omega
        have h1 := ih (n / 2) h2 hle
        have hp := bitLenAux_pos h2 hle
        have : bitLenAux f (n / 2) = (bitLenAux f (n / 2) - 1) + 1 := by omega
        rw [this, pow_succ]
        omega

theorem two_pow_bitLen_le {n : Nat} (h0 : n ≠ 0) : 2 ^ (bitLen n - 1) ≤ n :=
  two_pow_bitLenAux_le n n h0 (le_refl n)

theorem roundHalfEven_bounds (n d : Nat) :
    n / d ≤ roundHalfEven n d ∧ roundHalfEven n d ≤ n / d + 1 := by
  unfold roundHalfEven
  simp only
  split_ifs <;> omega

/-- The spacing used by `roundMagnitude` is at most `max 1 (t / 2^52)`. -/
theorem spacing_le (t : Nat) : 2 ^ (bitLen t - 53) * 2 ^ 52 ≤ max (2 ^ 52) t := by
  by_cases h : bitLen t ≤ 53
  · have : bitLen t - 53 = 0 := by omega
    rw [this]; simp
  · have h0 : t ≠ 0 := by
      intro h0; subst h0; simp [bitLen, bitLenAux] at h
    have h1 := two_pow_bitLen_le h0
    have : bitLen t - 1 = (bitLen t - 53) + 52 := by omega
    rw [this, pow_add] at h1
    exact le_trans h1 (le_max_right _ _)

/-- The rounded magnitude times the denominator differs from the numerator
(in units) by at most one spacing times the denominator. -/
theorem roundMagnitude_near (num den : Nat) (hden : 0 < den) :
    roundMagnitude num den * den ≤ num * one + den * 2 ^ (bitLen (num * one / den) - 53) ∧
    num * one ≤ roundMagnitude num den * den + den * 2 ^ (bitLen (num * one / den) - 53) := by
  unfold roundMagnitude
  simp only
  generalize bitLen (num * one / den) - 53 = s
  generalize num * one = n
  have hD : 0 < den * 2 ^ s := Nat.mul_pos hden (by positivity)
  obtain ⟨h1, h2⟩ := roundHalfEven_bounds n (den * 2 ^ s)
  have h3 : n / (den * 2 ^ s) * (den * 2 ^ s) ≤ n := Nat.div_mul_le_self _ _
  have h4 : n < (n / (den * 2 ^ s) + 1) * (den * 2 ^ s) := Nat.lt_div_mul_add hD |>.trans_le (by
    rw [Nat.add_mul, Nat.one_mul])
  have e : ∀ r : Nat, r * 2 ^ s * den = r * (den * 2 ^ s) := by intro r; ring
  rw [e]
  constructor
  · calc roundHalfEven n (den * 2 ^ s) * (den * 2 ^ s)
        ≤ (n / (den * 2 ^ s) + 1) * (den * 2 ^ s) := Nat.mul_le_mul_right _ h2
      _ = n / (den * 2 ^ s) * (den * 2 ^ s) + den * 2 ^ s := by ring
      _ ≤ n + den * 2 ^ s := by omega
  · calc n ≤ (n / (den * 2 ^ s) + 1) * (den * 2 ^ s) := le_of_lt h4
      _ = n / (den * 2 ^ s) * (den * 2 ^ s) + den * 2 ^ s := by ring
      _ ≤ roundHalfEven n (den * 2 ^ s) * (den * 2 ^ s) + den * 2 ^ s :=
          Nat.add_le_add_right (Nat.mul_le_mul_right _ h1) _

theorem roundMagnitude_le (num den : Nat) (hden : 0 < den) :
    roundMagnitude num den ≤ 2 * (num * one / den) + 1 := by
  obtain ⟨h1, -⟩ := roundMagnitude_near num den hden
  have h2 := spacing_le (num * one / den)
  set t := num * one / den with ht
  set s := bitLen t - 53
  have h3 : 2 ^ s ≤ t + 1 := by
    have hp : (0 : Nat) < 2 ^ 52 := by positivity
    rcases le_total (2 ^ 52) t with h | h
    · rw [max_eq_right h] at h2
      have : 2 ^ s * 2 ^ 52 ≤ t * 2 ^ 52 := le_trans h2 (Nat.le_mul_of_pos_right _ hp)
      exact le_trans (Nat.le_of_mul_le_mul_right this hp) (Nat.le_succ t)
    · rw [max_eq_left h] at h2
      have : 2 ^ s * 2 ^ 52 ≤ 1 * 2 ^ 52 := by simpa using h2
      exact le_trans (Nat.le_of_mul_le_mul_right this hp) (Nat.le_add_left 1 t)
  have h4 : roundMagnitude num den * den ≤ num * one + den * (t + 1) :=
    le_trans h1 (Nat.add_le_add_left (Nat.mul_le_mul_left _ h3) _)
  have h5 : roundMagnitude num den ≤ (num * one + den * (t + 1)) / den :=
    (Nat.le_div_iff_mul_le hden).2 h4
  rw [Nat.add_mul_div_left _ _ hden] at h5
  omega

theorem c02_eq : c02 = fin ((3602879701896397 * 2 ^ 1020 : Nat) : Int) := by decide!

theorem c025_eq : c025 = fin ((2 ^ 1072 : Nat) : Int) := by decide!

theorem one_pos : 0 < one := by unfold one; positivity

theorem mul_fin_fin (a b : Int) :
    mul (fin a) (fin b)
      = round (decide (a < 0) != decide (b < 0)) (a.natAbs * b.natAbs) (one * one) := rfl

/-- A finite value between 0 and 10^18, multiplied by `0.2`, is a finite value
between 0 and 10^18. -/
theorem mul_c02_of_nonneg (z : Int) (h0 : 0 ≤ z)
    (h1 : z ≤ ((10 ^ 18 * one : Nat) : Int)) :
    ∃ m : Nat, mul (fin z) c02 = fin (m : Int) ∧ m ≤ 10 ^ 18 * one := by
  obtain ⟨a, rfl⟩ := Int.eq_ofNat_of_zero_le h0
  have ha : a ≤ 10 ^ 18 * one := by exact_mod_cast h1
  rw [c02_eq, mul_fin_fin]
  have hneg : (decide ((a : Int) < 0) != decide (((3602879701896397 * 2 ^ 1020 : Nat) : Int) < 0))
      = false := by
    have e1 : ¬ ((a : Int) < 0) := by omega
    have e2 : ¬ (((3602879701896397 * 2 ^ 1020 : Nat) : Int) < 0) := by
      exact not_lt.2 (Int.ofNat_nonneg _)
    simp [e1, e2]
  rw [hneg]
  simp only [Int.natAbs_ofNat]
  set c : Nat := 3602879701896397 * 2 ^ 1020 with hc
  have hc4 : 4 * c ≤ one := by rw [hc]; unfold one; decide!
  have hc1 : 1 ≤ c := by rw [hc]; exact Nat.mul_pos (by norm_num) (Nat.pos_pow_of_pos _ (by norm_num))
  have hU := one_pos
  have hle := roundMagnitude_le (a * c) (one * one) (Nat.mul_pos hU hU)
  have ht : a * c * one / (one * one) ≤ 10 ^ 18 * c := by
    rw [Nat.mul_div_mul_right _ _ hU]
    apply Nat.div_le_of_le_mul
    calc a * c ≤ 10 ^ 18 * one * c := Nat.mul_le_mul_right _ ha
      _ = one * (10 ^ 18 * c) := by ring
  have hm : roundMagnitude (a * c) (one * one) ≤ 10 ^ 18 * one := by
    have : 4 * (10 ^ 18 * c) ≤ 10 ^ 18 * one := by
      calc 4 * (10 ^ 18 * c) = 10 ^ 18 * (4 * c) := by ring
        _ ≤ 10 ^ 18 * one := Nat.mul_le_mul_left _ hc4
    have h18 : 1 ≤ 10 ^ 18 * c := Nat.mul_pos (by positivity) hc1
    omega
  refine ⟨roundMagnitude (a * c) (one * one), ?_, hm⟩
  unfold round
  have hlt : ¬ (2 ^ 2098 ≤ roundMagnitude (a * c) (one * one)) := by
    have : 10 ^ 18 * one < 2 ^ 2098 := by unfold one; decide!
    omega
  simp only
  rw [if_neg hlt]
  simp

end F64

/-- `int(math.Ceil(x))` for a finite `x` between 0 and `B`, with `B` an `int`. -/
theorem floatToInt_ceil_bounds (arch : Arch) (m B : Nat) (hm : m ≤ B * F64.one)
    (hB : (B : Int) ≤ 9223372036854775807) :
    0 ≤ floatToInt arch (F64.ceil (F64.fin (m : Int)))
      ∧ floatToInt arch (F64.ceil (F64.fin (m : Int))) ≤ B := by
  have hU : (0 : Int) < (F64.one : Int) := by exact_mod_cast F64.one_pos
  have hk0 : (-(m : Int)) / (F64.one : Int) ≤ 0 :=
    Int.ediv_le_of_le_mul hU (by omega)
  have hkB : -(B : Int) ≤ (-(m : Int)) / (F64.one : Int) := by
    apply Int.le_ediv_of_mul_le hU
    have : ((m : Nat) : Int) ≤ (B : Int) * (F64.one : Int) := by exact_mod_cast hm
    linarith
  have ht : Int.tdiv (-((-(m : Int)) / (F64.one : Int)) * (F64.one : Int)) (F64.one : Int)
      = -((-(m : Int)) / (F64.one : Int)) := Int.mul_tdiv_cancel _ (ne_of_gt hU)
  simp only [F64.ceil, floatToInt, ht]
  have hr : -9223372036854775808 ≤ -((-(m : Int)) / (F64.one : Int))
      ∧ -((-(m : Int)) / (F64.one : Int)) ≤ 9223372036854775807 := by omega
  rw [if_pos hr]
  omega

theorem floatToInt_fin_mul (arch : Arch) (c : Int) (h1 : -9223372036854775808 ≤ c)
    (h2 : c ≤ 9223372036854775807) : floatToInt arch (F64.fin (c * (F64.one : Int))) = c := by
  have hU : (0 : Int) < (F64.one : Int) := by exact_mod_cast F64.one_pos
  simp only [floatToInt, Int.mul_tdiv_cancel _ (ne_of_gt hU)]
  rw [if_pos ⟨h1, h2⟩]

theorem itemPoints_nonneg (arch : Arch) (item : Item)
    (h : scoredByRule5 item = true → priceInRange item.Price = true) :
    0 ≤ itemPoints arch item ∧ itemPoints arch item ≤ 1000000000000000000 := by
  unfold itemPoints
  by_cases hs : ((len (TrimSpace item.ShortDescription) : Nat) : Int) % 3 = 0
  · have hp := h (by simp [scoredByRule5, hs])
    simp only [hs, if_true]
    unfold priceInRange at hp
    cases hv : (ParseFloat item.Price).1 with
    | nan => simp [hv] at hp
    | inf s => simp [hv] at hp
    | fin z =>
        simp only [hv, Bool.and_eq_true, decide_eq_true_eq] at hp
        obtain ⟨m, hm, hle⟩ := F64.mul_c02_of_nonneg z hp.1 hp.2
        rw [hm]
        have := floatToInt_ceil_bounds arch m (10 ^ 18) hle (by norm_num)
        simpa using this
  · simp [hs]

theorem itemPoints_of_multiple (arch : Arch) (item : Item)
    (h3 : len (TrimSpace item.ShortDescription) % 3 = 0) :
    itemPoints arch item
      = floatToInt arch (F64.ceil (F64.mul (ParseFloat item.Price).1 F64.c02)) := by
  have : ((len (TrimSpace item.ShortDescription) : Nat) : Int) % 3 = 0 := by omega
  simp [itemPoints, this]

/-- An item scored by rule 5 whose `float64` ceiling is the integer `c`, an
`int`, contributes `c` on every platform. -/
theorem itemPoints_of_ceil (arch : Arch) (item : Item) (c : Nat)
    (h3 : len (TrimSpace item.ShortDescription) % 3 = 0)
    (hc : F64.ceil (F64.mul (ParseFloat item.Price).1 F64.c02)
      = F64.fin ((c * 2 ^ 1074 : Nat) : Int))
    (h : (c : Int) ≤ 9223372036854775807) : itemPoints arch item = (c : Int) := by
  rw [itemPoints_of_multiple arch item h3, hc]
  have e : ((c * 2 ^ 1074 : Nat) : Int) = (c : Int) * (F64.one : Int) := by
    unfold F64.one; push_cast; rfl
  rw [e]
  exact floatToInt_fin_mul arch c (by omega) h

/-! ## Lemmas on the contributions -/

theorem alnumCount_le (bytes : List Nat) : alnumCount bytes ≤ bytes.length :=
  List.length_filter_le _ _

theorem retailerPoints_eq_count (retailer : GoString) (h : len retailer ≤ 9223372036854775807) :
    retailerPoints retailer = alnumCount (utf8Bytes retailer) := by
  rw [retailerPoints_eq]
  have := alnumCount_le (utf8Bytes retailer)
  unfold len at h
  apply wrapInt_eq_self <;> omega

theorem pairPoints_eq (n : Nat) (h : 32 * n < 2 ^ 64) : pairPoints n = ((n / 2 * 5 : Nat) : Int) := by
  unfold pairPoints intMul
  have h2 : n / 2 * 5 ≤ 9223372036854775807 := by omega
  rw [wrapInt_eq_self] <;> push_cast <;> omega

theorem roundDollarPoints_cases (total : GoString) :
    roundDollarPoints total = 0 ∨ roundDollarPoints total = 50 := by
  unfold roundDollarPoints; split_ifs <;> simp

theorem quarterPoints_cases (total : GoString) :
    quarterPoints total = 0 ∨ quarterPoints total = 25 := by
  unfold quarterPoints; split_ifs <;> simp

theorem oddDayPoints_cases (purchaseDate : GoString) :
    oddDayPoints purchaseDate = 0 ∨ oddDayPoints purchaseDate = 6 := by
  unfold oddDayPoints; split_ifs <;> simp

theorem afternoonPoints_cases (purchaseTime : GoString) :
    afternoonPoints purchaseTime = 0 ∨ afternoonPoints purchaseTime = 10 := by
  unfold afternoonPoints; split_ifs <;> simp

theorem sum_map_nonneg (f : Item → Int) (items : List Item) (h : ∀ item ∈ items, 0 ≤ f item) :
    0 ≤ (items.map f).sum := by
  induction items with
  | nil => simp
  | cons it rest ih =>
      simp only [List.map_cons, List.sum_cons]
      have h1 := h it (List.mem_cons_self _ _)
      have h2 := ih (fun x hx => h x (List.mem_cons_of_mem _ hx))
      omega

/-! ## Claims C1 and C2 -/

/-- C1 as stated fails: in the receipt with an empty retailer, the total `0.10`
and six items `abc` priced `9e18`, the seven contributions are 0, 0, 0, 15,
6 * 1800000000000000000, 0 and 0, whose sum 10800000000000000015 is above the
largest `int`; `calculatePoints` returns -7646744073709551601, the sum less
2^64, on every platform. -/
theorem calculatePoints_of_overflowing_sum :
    (∀ arch : Arch,
      retailerPoints overflowReceipt.Retailer + roundDollarPoints overflowReceipt.Total
          + quarterPoints overflowReceipt.Total + pairPoints overflowReceipt.Items.length
          + (overflowReceipt.Items.map (itemPoints arch)).sum
          + oddDayPoints overflowReceipt.PurchaseDate
          + afternoonPoints overflowReceipt.PurchaseTime = 10800000000000000015
        ∧ calculatePoints arch overflowReceipt = -7646744073709551601)
      ∧ ¬ ∀ (arch : Arch) (receipt : Receipt),
          calculatePoints arch receipt
            = retailerPoints receipt.Retailer + roundDollarPoints receipt.Total
              + quarterPoints receipt.Total + pairPoints receipt.Items.length
              + (receipt.Items.map (itemPoints arch)).sum
              + oddDayPoints receipt.PurchaseDate + afternoonPoints receipt.PurchaseTime := by
  have hitem : ∀ arch : Arch,
      itemPoints arch ⟨"abc".toList, "9e18".toList⟩ = 1800000000000000000 := by
    intro arch
    exact itemPoints_of_ceil arch ⟨"abc".toList, "9e18".toList⟩ 1800000000000000000
      (by decide) (by decide!) (by decide)
  have hmap : ∀ arch : Arch, overflowReceipt.Items.map (itemPoints arch)
      = List.replicate 6 1800000000000000000 := by
    intro arch
    simp only [overflowReceipt, List.replicate, List.map, hitem arch]
  have h1 : retailerPoints overflowReceipt.Retailer = 0 := by decide!
  have h2 : roundDollarPoints overflowReceipt.Total = 0 := by decide!
  have h3 : quarterPoints overflowReceipt.Total = 0 := by decide!
  have h4 : pairPoints overflowReceipt.Items.length = 15 := by decide!
  have h6 : oddDayPoints overflowReceipt.PurchaseDate = 0 := by decide!
  have h7 : afternoonPoints overflowReceipt.PurchaseTime = 0 := by decide!
  have hsum : ∀ arch : Arch,
      retailerPoints overflowReceipt.Retailer + roundDollarPoints overflowReceipt.Total
          + quarterPoints overflowReceipt.Total + pairPoints overflowReceipt.Items.length
          + (overflowReceipt.Items.map (itemPoints arch)).sum
          + oddDayPoints overflowReceipt.PurchaseDate
          + afternoonPoints overflowReceipt.PurchaseTime = 10800000000000000015 := by
    intro arch
    rw [hmap arch, h1, h2, h3, h4, h6, h7]
    decide
  have hcalc : ∀ arch : Arch, calculatePoints arch overflowReceipt = -7646744073709551601 := by
    intro arch
    have e : contributionSum arch overflowReceipt = 10800000000000000015 := hsum arch
    rw [calculatePoints_eq_wrap, e]
    decide
  refine ⟨fun arch => ⟨hsum arch, hcalc arch⟩, fun hall => ?_⟩
  have h := hall amd64 overflowReceipt
  rw [hsum amd64, hcalc amd64] at h
  exact absurd h (by decide)

/-- C1, amended: `calculatePoints` is the sum, in Go `int` arithmetic (the
mathematical sum reduced to the 64-bit two's complement range), of seven
contributions: rule 1 computed from the retailer only, rules 2 and 3 from the
total only, rule 4 from the number of items only, rule 5 as a sum over the
items of a contribution of each item, rule 6 from the purchase date only and
rule 7 from the purchase time only.  When the mathematical sum is within the
`int` range the result is that sum, and receipts with equal fields get equal
points. -/
theorem calculatePoints_is_sum_of_contributions (arch : Arch) (receipt : Receipt) :
    calculatePoints arch receipt
        = wrapInt (retailerPoints receipt.Retailer + roundDollarPoints receipt.Total
            + quarterPoints receipt.Total + pairPoints receipt.Items.length
            + (receipt.Items.map (itemPoints arch)).sum
            + oddDayPoints receipt.PurchaseDate + afternoonPoints receipt.PurchaseTime)
      ∧ (-9223372036854775808 ≤ contributionSum arch receipt
          ∧ contributionSum arch receipt ≤ 9223372036854775807 →
          calculatePoints arch receipt
            = retailerPoints receipt.Retailer + roundDollarPoints receipt.Total
              + quarterPoints receipt.Total + pairPoints receipt.Items.length
              + (receipt.Items.map (itemPoints arch)).sum
              + oddDayPoints receipt.PurchaseDate + afternoonPoints receipt.PurchaseTime)
      ∧ ∀ other : Receipt,
          other.Retailer = receipt.Retailer → other.PurchaseDate = receipt.PurchaseDate →
          other.PurchaseTime = receipt.PurchaseTime → other.Items = receipt.Items →
          other.Total = receipt.Total →
          calculatePoints arch other = calculatePoints arch receipt := by
  refine ⟨calculatePoints_eq_wrap arch receipt, ?_, ?_⟩
  · intro h
    rw [calculatePoints_eq_wrap, wrapInt_eq_self h.1 h.2]
    rfl
  · intro other h1 h2 h3 h4 h5
    cases other; cases receipt
    simp only at h1 h2 h3 h4 h5
    subst h1 h2 h3 h4 h5
    rfl

/-- The amended C1 on the `Target` receipt: 6 + 0 + 0 + 10 + 6 + 6 + 0. -/
theorem calculatePoints_is_sum_of_contributions_witness :
    calculatePoints amd64 targetReceipt
      = retailerPoints targetReceipt.Retailer + roundDollarPoints targetReceipt.Total
        + quarterPoints targetReceipt.Total + pairPoints targetReceipt.Items.length
        + (targetReceipt.Items.map (itemPoints amd64)).sum
        + oddDayPoints targetReceipt.PurchaseDate + afternoonPoints targetReceipt.PurchaseTime :=
  (calculatePoints_is_sum_of_contributions amd64 targetReceipt).2.1 (by decide!)

/-- C2 as stated fails: the receipt with one item `Refund` of price `-1000.00`
gets 6 + 50 + 25 + 0 - 200 + 0 + 0 = -119 points, a negative total. -/
theorem calculatePoints_negative_on_refund :
    calculatePoints amd64 refundReceipt = -119
      ∧ ¬ ∀ (arch : Arch) (receipt : Receipt), 0 ≤ calculatePoints arch receipt := by
  have h : calculatePoints amd64 refundReceipt = -119 := by decide!
  refine ⟨h, fun hall => ?_⟩
  have := hall amd64 refundReceipt
  rw [h] at this
  exact absurd this (by decide)

/-- C2, amended: for a receipt in which every item scored by rule 5 has a
price that parses to a finite value between 0 and 10^18, and whose seven
contributions add up to at most the largest `int`, `calculatePoints` is not
negative; rules 1 to 4, 6 and 7 never subtract points, and rule 5 does not
for such items. -/
theorem calculatePoints_nonneg (arch : Arch) (receipt : Receipt) (hmem : receipt.InMemory)
    (hprice : ∀ item ∈ receipt.Items, scoredByRule5 item = true → priceInRange item.Price = true)
    (hsum : contributionSum arch receipt ≤ 9223372036854775807) :
    0 ≤ calculatePoints arch receipt
      ∧ 0 ≤ retailerPoints receipt.Retailer ∧ 0 ≤ roundDollarPoints receipt.Total
      ∧ 0 ≤ quarterPoints receipt.Total ∧ 0 ≤ pairPoints receipt.Items.length
      ∧ 0 ≤ oddDayPoints receipt.PurchaseDate ∧ 0 ≤ afternoonPoints receipt.PurchaseTime
      ∧ ∀ item ∈ receipt.Items, 0 ≤ itemPoints arch item := by
  have h1 : 0 ≤ retailerPoints receipt.Retailer := by
    rw [retailerPoints_eq_count _ hmem.1]; exact Int.ofNat_nonneg _
  have h2 : 0 ≤ roundDollarPoints receipt.Total := by
    rcases roundDollarPoints_cases receipt.Total with h | h <;> simp [h]
  have h3 : 0 ≤ quarterPoints receipt.Total := by
    rcases quarterPoints_cases receipt.Total with h | h <;> simp [h]
  have h4 : 0 ≤ pairPoints receipt.Items.length := by
    rw [pairPoints_eq _ hmem.2]; exact Int.ofNat_nonneg _
  have h6 : 0 ≤ oddDayPoints receipt.PurchaseDate := by
    rcases oddDayPoints_cases receipt.PurchaseDate with h | h <;> simp [h]
  have h7 : 0 ≤ afternoonPoints receipt.PurchaseTime := by
    rcases afternoonPoints_cases receipt.PurchaseTime with h | h <;> simp [h]
  have h5 : ∀ item ∈ receipt.Items, 0 ≤ itemPoints arch item :=
    fun item hi => (itemPoints_nonneg arch item (hprice item hi)).1
  have h5s := sum_map_nonneg (itemPoints arch) receipt.Items h5
  refine ⟨?_, h1, h2, h3, h4, h6, h7, h5⟩
  have hs : 0 ≤ contributionSum arch receipt := by
    unfold contributionSum; omega
  rw [calculatePoints_eq_wrap, wrapInt_eq_self (by omega) hsum]
  exact hs

/-- The amended C2 on the `Target` receipt, which gets 28 points. -/
theorem calculatePoints_nonneg_witness :
    targetReceipt.InMemory ∧ contributionSum amd64 targetReceipt ≤ 9223372036854775807
      ∧ 0 ≤ calculatePoints amd64 targetReceipt :=
  ⟨by decide!, by decide!,
    (calculatePoints_nonneg amd64 targetReceipt (by decide!) (by decide!) (by decide!)).1⟩

/-! ## Lemmas on the map and the handlers -/

theorem Registry.get_set_self (receipts : Registry) (id : GoString) (receipt : Receipt) :
    (receipts.set id receipt).get id = some receipt := by
  induction receipts with
  | nil => simp [Registry.set, Registry.get]
  | cons e rest ih =>
      obtain ⟨k, v⟩ := e
      by_cases h : id = k
      · simp [Registry.set, Registry.get, h]
      · simp [Registry.set, Registry.get, h, ih]

theorem Registry.get_set_of_ne (receipts : Registry) (id other : GoString) (receipt : Receipt)
    (hne : other ≠ id) : (receipts.set id receipt).get other = receipts.get other := by
  induction receipts with
  | nil => simp [Registry.set, Registry.get, hne]
  | cons e rest ih =>
      obtain ⟨k, v⟩ := e
      by_cases h : id = k
      · subst h
        simp [Registry.set, Registry.get, hne]
      · by_cases h2 : other = k
        · simp [Registry.set, Registry.get, h, h2]
        · simp [Registry.set, Registry.get, h, h2, ih]

theorem uuidString_ne_nil (u : Nat) : uuidString u ≠ [] := by
  simp [uuidString, uuidByte]

theorem generateUuid_fresh (receipts : Registry) (draws rest : List Nat) (id : GoString)
    (h : generateUuid receipts draws = some (id, rest)) :
    receipts.get id = none ∧ id ≠ [] := by
  induction draws with
  | nil => simp [generateUuid] at h
  | cons u us ih =>
      simp only [generateUuid] at h
      by_cases hc : (receipts.get (uuidString u)).isSome = true
      · rw [if_pos hc] at h
        exact ih h
      · rw [if_neg hc] at h
        simp only [Option.some.injEq, Prod.mk.injEq] at h
        obtain ⟨h1, -⟩ := h
        subst h1
        refine ⟨?_, uuidString_ne_nil u⟩
        cases hg : receipts.get (uuidString u) with
        | none => rfl
        | some v => simp [hg] at hc

theorem trim_path (id : GoString) :
    TrimSuffix (TrimPrefix ("/receipts/".toList ++ id ++ "/points".toList) "/receipts/".toList)
      "/points".toList = id := by
  have h1 : TrimPrefix ("/receipts/".toList ++ id ++ "/points".toList) "/receipts/".toList
      = id ++ "/points".toList := by
    unfold TrimPrefix
    have hp : ("/receipts/".toList).isPrefixOf ("/receipts/".toList ++ id ++ "/points".toList)
        = true := by
      rw [List.isPrefixOf_iff_prefix, List.append_assoc]
      exact List.prefix_append _ _
    rw [if_pos hp, List.append_assoc, List.drop_left]
  rw [h1]
  unfold TrimSuffix
  have hs : ("/points".toList).isSuffixOf (id ++ "/points".toList) = true := by
    rw [List.isSuffixOf_iff_suffix]
    exact List.suffix_append _ _
  rw [if_pos hs]
  have : (id ++ "/points".toList).length - ("/points".toList).length = id.length := by
    simp
  rw [this, List.take_left]

/-- What `getPointsHandler` answers to the redeem request for `id`. -/
theorem getPointsHandler_redeem (arch : Arch) (receipts : Registry) (id : GoString) :
    getPointsHandler arch receipts (redeemRequest id)
      = if id = [] then (Response.Error "Receipt ID is required" 400, receipts)
        else match receipts.get id with
          | none => (Response.Error "No receipt found for that ID" 404, receipts)
          | some receipt => (Response.PointsResponse (calculatePoints arch receipt), receipts) := by
  unfold getPointsHandler redeemRequest
  simp only [ne_eq, not_true_eq_false, if_false, trim_path]

theorem submitAll_spec (subs : List (Receipt × List Nat)) :
    ∀ (start final : Registry) (ids : List GoString),
      submitAll start subs = some (ids, final) →
      ids.length = subs.length
        ∧ (∀ id receipt, start.get id = some receipt → final.get id = some receipt)
        ∧ ∀ p ∈ ids.zip subs, p.1 ≠ [] ∧ final.get p.1 = some p.2.1 := by
  induction subs with
  | nil =>
      intro start final ids h
      simp only [submitAll, Option.some.injEq, Prod.mk.injEq] at h
      obtain ⟨h1, h2⟩ := h
      subst h1 h2
      simp
  | cons sub rest ih =>
      intro start final ids h
      obtain ⟨receipt, draws⟩ := sub
      simp only [submitAll, processReceiptHandler, submitRequest, ne_eq, not_true_eq_false,
        if_false] at h
      cases hg : generateUuid start draws with
      | none => simp [hg] at h
      | some res =>
          obtain ⟨id, draws1⟩ := res
          simp only [hg] at h
          cases hr : submitAll (start.set id receipt) rest with
          | none => simp [hr] at h
          | some res2 =>
              obtain ⟨ids1, final1⟩ := res2
              simp only [hr, Option.some.injEq, Prod.mk.injEq] at h
              obtain ⟨h1, h2⟩ := h
              subst h1 h2
              obtain ⟨hlen, hkeep, hnew⟩ := ih _ _ _ hr
              obtain ⟨hfresh, hne⟩ := generateUuid_fresh _ _ _ _ hg
              refine ⟨by simp [hlen], ?_, ?_⟩
              · intro id2 r2 hget
                apply hkeep
                have hne2 : id2 ≠ id := by
                  intro e; subst e; rw [hfresh] at hget; cases hget
                rw [Registry.get_set_of_ne _ _ _ _ hne2]
                exact hget
              · intro p hp
                simp only [List.zip_cons_cons, List.mem_cons] at hp
                rcases hp with hp | hp
                · subst hp
                  exact ⟨hne, hkeep _ _ (Registry.get_set_self _ _ _)⟩
                · exact hnew p hp

/-! ## Claims C3 and C4 -/

/-- C3: after any sequence of submissions starting from the empty map, and
after any further submissions, redeeming the identifier returned by a
submission answers `calculatePoints` of the receipt submitted then; the entry
of that identifier is still the same receipt. -/
theorem redeem_returns_points_of_submission (arch : Arch)
    (subs later : List (Receipt × List Nat)) (ids laterIds : List GoString)
    (mid final : Registry)
    (h1 : submitAll [] subs = some (ids, mid))
    (h2 : submitAll mid later = some (laterIds, final)) :
    ids.length = subs.length
      ∧ ∀ p ∈ ids.zip subs,
          getPointsHandler arch mid (redeemRequest p.1)
              = (Response.PointsResponse (calculatePoints arch p.2.1), mid)
            ∧ getPointsHandler arch final (redeemRequest p.1)
              = (Response.PointsResponse (calculatePoints arch p.2.1), final)
            ∧ final.get p.1 = some p.2.1 := by
  obtain ⟨hlen, -, hnew⟩ := submitAll_spec subs _ _ _ h1
  obtain ⟨-, hkeep, -⟩ := submitAll_spec later _ _ _ h2
  refine ⟨hlen, fun p hp => ?_⟩
  obtain ⟨hne, hget⟩ := hnew p hp
  have hget2 := hkeep _ _ hget
  refine ⟨?_, ?_, hget2⟩
  · rw [getPointsHandler_redeem, if_neg hne, hget]
  · rw [getPointsHandler_redeem, if_neg hne, hget2]

/-- C3 on two submissions followed by a third: the identifier of the first
still redeems to the points of the `Target` receipt. -/
theorem redeem_returns_points_of_submission_witness :
    ∃ final : Registry,
      submitAll exampleRegistry exampleLater = some ([uuidString 11], final)
        ∧ getPointsHandler amd64 final (redeemRequest (uuidString 7))
          = (Response.PointsResponse (calculatePoints amd64 targetReceipt), final) :=
  ⟨exampleRegistry.set (uuidString 11) targetReceipt, by decide!,
    ((redeem_returns_points_of_submission amd64 exampleSubmissions exampleLater
      [uuidString 7, uuidString 9] [uuidString 11] exampleRegistry
      (exampleRegistry.set (uuidString 11) targetReceipt) (by decide!) (by decide!)).2
      (uuidString 7, (targetReceipt, [7, 7])) (by decide!)).2.1⟩

/-- C4 as stated fails for the empty identifier: it was never inserted, and
redeeming it is answered with status 400, not with the 404 of an unknown
identifier. -/
theorem redeem_empty_id_is_bad_request :
    getPointsHandler amd64 [] (redeemRequest [])
        = (Response.Error "Receipt ID is required" 400, [])
      ∧ ¬ ∀ (arch : Arch) (receipts : Registry) (id : GoString), receipts.get id = none →
          (getPointsHandler arch receipts (redeemRequest id)).1
            = Response.Error "No receipt found for that ID" 404 := by
  have h : getPointsHandler amd64 [] (redeemRequest [])
      = (Response.Error "Receipt ID is required" 400, []) := by decide
  refine ⟨h, fun hall => ?_⟩
  have h2 := hall amd64 [] [] rfl
  rw [h] at h2
  exact absurd h2 (by decide)

/-- C4, amended: redeeming an identifier that is not a key of the map is
answered with status 404 when the identifier is not empty and with status 400
when it is empty; in both cases no point total is returned and the map is
unchanged. -/
theorem redeem_unknown_id (arch : Arch) (receipts : Registry) (id : GoString)
    (h : receipts.get id = none) :
    (id ≠ [] → getPointsHandler arch receipts (redeemRequest id)
        = (Response.Error "No receipt found for that ID" 404, receipts))
      ∧ (id = [] → getPointsHandler arch receipts (redeemRequest id)
        = (Response.Error "Receipt ID is required" 400, receipts))
      ∧ ∀ points : Int,
          (getPointsHandler arch receipts (redeemRequest id)).1 ≠ Response.PointsResponse points := by
  rw [getPointsHandler_redeem, h]
  refine ⟨fun hne => by rw [if_neg hne], fun he => by rw [if_pos he], fun points => ?_⟩
  by_cases he : id = []
  · rw [if_pos he]; simp
  · rw [if_neg he]; simp

/-- The amended C4 on the map after two submissions and an identifier that
neither of them returned. -/
theorem redeem_unknown_id_witness :
    exampleRegistry.get (uuidString 11) = none
      ∧ getPointsHandler amd64 exampleRegistry (redeemRequest (uuidString 11))
        = (Response.Error "No receipt found for that ID" 404, exampleRegistry) :=
  ⟨by decide!, (redeem_unknown_id amd64 exampleRegistry (uuidString 11) (by decide!)).1
    (by decide!)⟩

/-! ## Rule 1: bytes and characters -/

theorem isAlphanumeric_ascii : ∀ v < 128, isAlphanumeric v alphabet numbers
    = (('a'.toNat ≤ v && v ≤ 'z'.toNat) || ('A'.toNat ≤ v && v ≤ 'Z'.toNat)
      || ('0'.toNat ≤ v && v ≤ '9'.toNat)) := by decide!

theorem mem_of_containsByte (v : Nat) (l : List Nat) (h : containsByte v l = true) : v ∈ l := by
  induction l with
  | nil => simp [containsByte] at h
  | cons x xs ih =>
      simp only [containsByte] at h
      by_cases hx : v = x
      · simp [hx]
      · rw [if_neg hx] at h
        exact List.mem_cons_of_mem _ (ih h)

theorem isAlphanumeric_non_ascii (v : Nat) (hv : 128 ≤ v) :
    isAlphanumeric v alphabet numbers = false := by
  have ha : ∀ x ∈ alphabet, x < 128 := by decide
  have hn : ∀ x ∈ numbers, x < 128 := by decide
  have h1 : containsByte v alphabet = false := by
    cases h : containsByte v alphabet with
    | false => rfl
    | true => have := ha v (mem_of_containsByte v _ h); omega
  have h2 : containsByte v numbers = false := by
    cases h : containsByte v numbers with
    | false => rfl
    | true => have := hn v (mem_of_containsByte v _ h); omega
  simp [isAlphanumeric, h1, h2]

theorem alnumCount_append (a b : List Nat) : alnumCount (a ++ b) = alnumCount a + alnumCount b := by
  simp [alnumCount, List.filter_append]

theorem alnumCount_utf8EncodeRune (c : Char) :
    alnumCount (utf8EncodeRune c) = if isAsciiLetterOrDigit c then 1 else 0 := by
  by_cases h : c.toNat < 128
  · have e : utf8EncodeRune c = [c.toNat] := by simp [utf8EncodeRune, h]
    rw [e]
    have := isAlphanumeric_ascii c.toNat h
    simp only [alnumCount, List.filter_cons, List.filter_nil, this, isAsciiLetterOrDigit]
    split_ifs <;> rfl
  · have hc : isAsciiLetterOrDigit c = false := by
      simp [isAsciiLetterOrDigit]
      omega
    have hb : ∀ b ∈ utf8EncodeRune c, isAlphanumeric b alphabet numbers = false := by
      intro b hb
      apply isAlphanumeric_non_ascii
      unfold utf8EncodeRune at hb
      simp only at hb
      split_ifs at hb <;> simp at hb <;> omega
    have : (utf8EncodeRune c).filter (fun b => isAlphanumeric b alphabet numbers) = [] := by
      rw [List.filter_eq_nil_iff]
      intro b hb'
      simp [hb b hb']
    simp [alnumCount, this, hc]

theorem alnumCount_utf8Bytes (s : GoString) :
    alnumCount (utf8Bytes s) = (s.filter isAsciiLetterOrDigit).length := by
  induction s with
  | nil => rfl
  | cons c cs ih =>
      rw [utf8Bytes, alnumCount_append, alnumCount_utf8EncodeRune, ih, List.filter_cons]
      split_ifs <;> simp
      omega

/-! ## Claim C5 -/

/-- C5: the contribution of rule 1 is the number of characters of the retailer
that are ASCII letters or ASCII digits; any other character, a character
outside ASCII included, contributes 0.  `Target` contributes 6 and
`M&M Corner Market` contributes 14. -/
theorem retailerPoints_counts_letters_and_digits (retailer : GoString)
    (h : len retailer ≤ 9223372036854775807) :
    retailerPoints retailer = (retailer.filter isAsciiLetterOrDigit).length
      ∧ (∀ c : Char, isAsciiLetterOrDigit c = false → retailerPoints [c] = 0)
      ∧ retailerPoints "Target".toList = 6
      ∧ retailerPoints "M&M Corner Market".toList = 14 := by
  refine ⟨?_, ?_, by decide, by decide⟩
  · rw [retailerPoints_eq_count _ h, alnumCount_utf8Bytes]
  · intro c hc
    have hl : len [c] ≤ 9223372036854775807 := by
      have : len [c] ≤ 4 := by
        simp only [len, utf8Bytes, utf8EncodeRune, List.append_nil]
        split_ifs <;> simp
      omega
    rw [retailerPoints_eq_count _ hl, alnumCount_utf8Bytes]
    simp [hc]

/-- C5 on a retailer name with accented letters: only the seven ASCII letters count. -/
theorem retailerPoints_counts_letters_and_digits_witness :
    retailerPoints "Café & Crème".toList = 7 ∧ len "Café & Crème".toList = 14 :=
  ⟨by
    have h := (retailerPoints_counts_letters_and_digits "Café & Crème".toList (by decide)).1
    rw [h]; decide, by decide⟩

/-! ## Rules 2 and 3: the rounding of a decimal total -/

namespace F64

theorem roundHalfEven_of_dvd (n d : Nat) (hd : 0 < d) (h : d ∣ n) : roundHalfEven n d = n / d := by
  unfold roundHalfEven
  have : n % d = 0 := Nat.mod_eq_zero_of_dvd h
  simp [this, hd]

/-- When `num / den` is a multiple of `2^-(1074-e)`, so is its rounding. -/
theorem roundMagnitude_dvd_of_dvd (num den e : Nat) (hden : 0 < den) (he : e ≤ 1074)
    (h : den ∣ num * 2 ^ (1074 - e)) : 2 ^ e ∣ roundMagnitude num den := by
  unfold roundMagnitude
  simp only
  generalize bitLen (num * one / den) - 53 = s
  rcases le_total s e with hs | hs
  · obtain ⟨J, hJ⟩ := h
    have hone : one = 2 ^ (1074 - e) * (2 ^ (e - s) * 2 ^ s) := by
      unfold one
      rw [← pow_add, ← pow_add]
      congr 1; omega
    have hn : num * one = (J * 2 ^ (e - s)) * (den * 2 ^ s) := by
      rw [hone, ← Nat.mul_assoc, hJ]; ring
    have hD : 0 < den * 2 ^ s := Nat.mul_pos hden (by positivity)
    rw [roundHalfEven_of_dvd _ _ hD ⟨J * 2 ^ (e - s), by rw [hn]; ring⟩, hn,
      Nat.mul_div_cancel _ hD]
    refine ⟨J, ?_⟩
    have : 2 ^ e = 2 ^ (e - s) * 2 ^ s := by rw [← pow_add]; congr 1; omega
    rw [this]; ring
  · exact Dvd.dvd.mul_left (pow_dvd_pow 2 hs) _

/-- For a rational with fewer than 52 - (1074 - e) binary digits in its
numerator and a denominator below `2^e`, a rounding that is a multiple of
`2^-(1074-e)` can only come from a rational that is one. -/
theorem dvd_of_roundMagnitude_dvd (num den e : Nat) (hden : 0 < den) (he : e ≤ 1074)
    (hnum : num * 2 ^ (1074 - e) < 2 ^ 52) (hd : den < 2 ^ e)
    (h : 2 ^ e ∣ roundMagnitude num den) : den ∣ num * 2 ^ (1074 - e) := by
  obtain ⟨j, hj⟩ := h
  obtain ⟨h1, h2⟩ := roundMagnitude_near num den hden
  have h3 := spacing_le (num * one / den)
  set s := bitLen (num * one / den) - 53
  have hone : one = 2 ^ (1074 - e) * 2 ^ e := by
    unfold one; rw [← pow_add]; congr 1; omega
  set G := 2 ^ (1074 - e)
  set Q := 2 ^ e
  have hQ : 0 < Q := by positivity
  -- the spacing times the denominator is below `Q`
  have hsp : den * 2 ^ s < Q := by
    have hp : (0 : Nat) < 2 ^ 52 := by positivity
    have hx : den * 2 ^ s * 2 ^ 52 < Q * 2 ^ 52 := by
      have : den * 2 ^ s * 2 ^ 52 = den * (2 ^ s * 2 ^ 52) := by ring
      rw [this]
      rcases le_total (2 ^ 52) (num * one / den) with hc | hc
      · rw [max_eq_right hc] at h3
        calc den * (2 ^ s * 2 ^ 52) ≤ den * (num * one / den) := Nat.mul_le_mul_left _ h3
          _ ≤ num * one := Nat.mul_div_le _ _
          _ = (num * G) * Q := by rw [hone]; ring
          _ < 2 ^ 52 * Q := Nat.mul_lt_mul_of_pos_right hnum hQ
          _ = Q * 2 ^ 52 := by ring
      · rw [max_eq_left hc] at h3
        calc den * (2 ^ s * 2 ^ 52) ≤ den * 2 ^ 52 := Nat.mul_le_mul_left _ h3
          _ < Q * 2 ^ 52 := Nat.mul_lt_mul_of_pos_right hd hp
    exact Nat.lt_of_mul_lt_mul_right hx
  rw [hj, hone] at h1
  rw [hj, hone] at h2
  have e1 : Q * j * den = (j * den) * Q := by ring
  have e2 : num * (G * Q) = (num * G) * Q := by ring
  rw [e1, e2] at h1 h2
  have hle1 : j * den ≤ num * G := by
    by_contra hc
    have : (num * G + 1) * Q ≤ (j * den) * Q := Nat.mul_le_mul_right _ (by omega)
    rw [Nat.add_mul, Nat.one_mul] at this
    omega
  have hle2 : num * G ≤ j * den := by
    by_contra hc
    have : (j * den + 1) * Q ≤ (num * G) * Q := Nat.mul_le_mul_right _ (by omega)
    rw [Nat.add_mul, Nat.one_mul] at this
    omega
  exact ⟨j, by rw [Nat.mul_comm den j]; omega⟩

end F64

theorem ParseFloat_of_readsAsDecimal (s : GoString) (x : Number) (h : readsAsDecimal s x) :
    (ParseFloat s).1 = x.value := by
  obtain ⟨h1, h2, h3, -⟩ := h
  unfold ParseFloat
  simp only [h1, h2, h3, ne_eq, not_true_eq_false, if_false]
  cases x.value <;> rfl

theorem Number.value_decimal (x : Number) (h : x.hex = false) :
    x.value = if 0 ≤ x.exp then F64.round x.neg (x.mantissa * 10 ^ x.exp.toNat) 1
      else F64.round x.neg x.mantissa (10 ^ (-x.exp).toNat) := by
  unfold Number.value
  simp [h]

/-- `math.Mod(x, q) == 0` for a rounded rational `x` and `q = 2^e` units:
`x` is finite and a multiple of `q`. -/
theorem isZero_mod_round (neg : Bool) (num den e : Nat) :
    (F64.mod (F64.round neg num den) (F64.fin ((2 ^ e : Nat) : Int))).isZero = true
      ↔ F64.roundMagnitude num den < 2 ^ 2098 ∧ 2 ^ e ∣ F64.roundMagnitude num den := by
  unfold F64.round
  simp only
  have hq : ((2 ^ e : Nat) : Int) ≠ 0 := by
    have : 0 < 2 ^ e := by positivity
    exact_mod_cast (ne_of_gt this)
  by_cases hm : 2 ^ 2098 ≤ F64.roundMagnitude num den
  · rw [if_pos hm]
    simp only [F64.mod, F64.isZero]
    constructor
    · intro h; cases h
    · intro h; omega
  · rw [if_neg hm]
    simp only [F64.mod, hq, if_false, F64.isZero, decide_eq_true_eq]
    have key : ∀ z : Int, Int.tmod z ((2 ^ e : Nat) : Int) = 0 ↔ ((2 ^ e : Nat) : Int) ∣ z :=
      fun z => ⟨Int.dvd_of_tmod_eq_zero, Int.tmod_eq_zero_of_dvd⟩
    rw [key]
    constructor
    · intro h
      refine ⟨by omega, ?_⟩
      cases neg
      · simpa using Int.natCast_dvd_natCast.1 (by simpa using h)
      · have h' : ((2 ^ e : Nat) : Int) ∣ ((F64.roundMagnitude num den : Nat) : Int) := by
          simpa using (dvd_neg.1 (by simpa using h))
        exact Int.natCast_dvd_natCast.1 h'
    · rintro ⟨-, h⟩
      have h' : ((2 ^ e : Nat) : Int) ∣ ((F64.roundMagnitude num den : Nat) : Int) :=
        Int.natCast_dvd_natCast.2 h
      cases neg
      · simpa using h'
      · simpa using (dvd_neg.2 h')

theorem roundMagnitude_finite (num den : Nat) (hden : 0 < den) (hnum : num < 2 ^ 1023) :
    F64.roundMagnitude num den < 2 ^ 2098 := by
  have h1 := F64.roundMagnitude_le num den hden
  have h2 : num * F64.one / den ≤ num * F64.one := Nat.div_le_self _ _
  have h3 : (num + 1) * F64.one ≤ 2 ^ 1023 * F64.one := Nat.mul_le_mul_right _ hnum
  have h4 : 2 * (2 ^ 1023 * F64.one) = 2 ^ 2098 := by
    unfold F64.one; rw [← pow_add, ← pow_succ']
  have h5 : 1 ≤ F64.one := F64.one_pos
  rw [Nat.add_mul, Nat.one_mul] at h3
  omega

theorem isZero_mod_fin (v : F64) (e : Nat) :
    (F64.mod v (F64.fin ((2 ^ e : Nat) : Int))).isZero
      = match v with
        | F64.fin z => decide (((2 ^ e : Nat) : Int) ∣ z)
        | _ => false := by
  have hq : ((2 ^ e : Nat) : Int) ≠ 0 := by
    have : 0 < 2 ^ e := by positivity
    exact_mod_cast (ne_of_gt this)
  cases v with
  | nan => rfl
  | inf s => rfl
  | fin z =>
      simp only [F64.mod, hq, if_false, F64.isZero]
      exact decide_eq_decide.2 ⟨Int.dvd_of_tmod_eq_zero, Int.tmod_eq_zero_of_dvd⟩

theorem c1_eq : F64.c1 = F64.fin ((2 ^ 1074 : Nat) : Int) := rfl

/-- For a decimal number of at most 15 digits and exponent between -300 and
290, `math.Mod(x, 2^-(1074-e)) == 0` on its rounding `x` holds exactly when
the decimal number is a multiple of `2^-(1074-e)`. -/
theorem isZero_mod_value (x : Number) (e : Nat) (he : e ≤ 1074) (he2 : 1072 ≤ e)
    (hhex : x.hex = false) (hm : x.mantissa < 10 ^ 15) (hlo : -300 ≤ x.exp) (hhi : x.exp ≤ 290) :
    (F64.mod x.value (F64.fin ((2 ^ e : Nat) : Int))).isZero = true
      ↔ (0 ≤ x.exp ∨ 10 ^ (-x.exp).toNat ∣ x.mantissa * 2 ^ (1074 - e)) := by
  rw [Number.value_decimal x hhex]
  by_cases hexp : 0 ≤ x.exp
  · rw [if_pos hexp, isZero_mod_round]
    have hk : x.exp.toNat ≤ 290 := by omega
    have hnum : x.mantissa * 10 ^ x.exp.toNat < 2 ^ 1023 := by
      have h1 : (10 : Nat) ^ x.exp.toNat ≤ 10 ^ 290 := Nat.pow_le_pow_right (by norm_num) hk
      have h2 : x.mantissa * 10 ^ x.exp.toNat ≤ 10 ^ 15 * 10 ^ 290 :=
        Nat.mul_le_mul (le_of_lt hm) h1
      have h3 : 10 ^ 15 * 10 ^ 290 < 2 ^ 1023 := by decide!
      omega
    simp only [hexp, true_or, iff_true]
    exact ⟨roundMagnitude_finite _ _ (by norm_num) hnum,
      F64.roundMagnitude_dvd_of_dvd _ _ e (by norm_num) he (one_dvd _)⟩
  · rw [if_neg hexp, isZero_mod_round]
    have hk : (-x.exp).toNat ≤ 300 := by omega
    have hden : 0 < 10 ^ (-x.exp).toNat := by positivity
    have hd : 10 ^ (-x.exp).toNat < 2 ^ e := by
      have h1 : (10 : Nat) ^ (-x.exp).toNat ≤ 10 ^ 300 := Nat.pow_le_pow_right (by norm_num) hk
      have h2 : (10 : Nat) ^ 300 < 2 ^ 1072 := by decide!
      have h3 : (2 : Nat) ^ 1072 ≤ 2 ^ e := Nat.pow_le_pow_right (by norm_num) he2
      omega
    have hG : 2 ^ (1074 - e) ≤ 4 := by
      have : (2 : Nat) ^ (1074 - e) ≤ 2 ^ 2 := Nat.pow_le_pow_right (by norm_num) (by omega)
      simpa using this
    have hnum : x.mantissa * 2 ^ (1074 - e) < 2 ^ 52 := by
      have h1 : x.mantissa * 2 ^ (1074 - e) ≤ 10 ^ 15 * 4 := Nat.mul_le_mul (le_of_lt hm) hG
      have h2 : 10 ^ 15 * 4 < 2 ^ 52 := by norm_num
      omega
    have hfin : x.mantissa < 2 ^ 1023 := by
      have : (10 : Nat) ^ 15 < 2 ^ 1023 := by decide!
      omega
    simp only [hexp, false_or]
    constructor
    · rintro ⟨-, h⟩
      exact F64.dvd_of_roundMagnitude_dvd _ _ e hden he hnum hd h
    · intro h
      exact ⟨roundMagnitude_finite _ _ hden hfin, F64.roundMagnitude_dvd_of_dvd _ _ e hden he h⟩

theorem roundDollarPoints_eq (total : GoString) :
    roundDollarPoints total = if (ParseFloat total).1.isWhole then 50 else 0 := by
  unfold roundDollarPoints
  rw [c1_eq, isZero_mod_fin]
  cases (ParseFloat total).1 <;> rfl

theorem quarterPoints_eq (total : GoString) :
    quarterPoints total = if (ParseFloat total).1.isQuarterMultiple then 25 else 0 := by
  unfold quarterPoints
  rw [F64.c025_eq, isZero_mod_fin]
  cases (ParseFloat total).1 <;> rfl

/-! ## Claims C6 and C7 -/

/-- C6 as stated fails: the total `1.00000000000000001` is a well-formed
decimal number with a fractional part that is not zero, and it earns the 50
points, because `ParseFloat` rounds it to the `float64` value 1. -/
theorem roundDollarPoints_of_rounded_total :
    readsAsDecimal "1.00000000000000001".toList ⟨false, false, 100000000000000001, -17, 19⟩
      ∧ Number.isWhole ⟨false, false, 100000000000000001, -17, 19⟩ = false
      ∧ roundDollarPoints "1.00000000000000001".toList = 50
      ∧ ¬ ∀ (total : GoString) (x : Number), readsAsDecimal total x →
          roundDollarPoints total = if x.isWhole then 50 else 0 := by
  have h1 : readsAsDecimal "1.00000000000000001".toList
      ⟨false, false, 100000000000000001, -17, 19⟩ := by decide!
  have h2 : Number.isWhole ⟨false, false, 100000000000000001, -17, 19⟩ = false := by decide!
  have h3 : roundDollarPoints "1.00000000000000001".toList = 50 := by decide!
  refine ⟨h1, h2, h3, fun hall => ?_⟩
  have h := hall _ _ h1
  rw [h2, h3] at h
  exact absurd h (by decide)

/-- C6, amended: the contribution of rule 2 is 50 if the `float64` that
`ParseFloat` returns for the total is finite with zero fractional part, and 0
otherwise.  For a total that is a well-formed decimal number of at most 15
digits with a decimal exponent between -300 and 290, this is the case exactly
when the decimal number has zero fractional part.  The total `100.00` earns
the 50 points and the total `10.10` does not. -/
theorem roundDollarPoints_of_total (total : GoString) :
    roundDollarPoints total = (if (ParseFloat total).1.isWhole then 50 else 0)
      ∧ (∀ x : Number, readsAsDecimal total x → x.mantissa < 10 ^ 15 → -300 ≤ x.exp →
          x.exp ≤ 290 → roundDollarPoints total = if x.isWhole then 50 else 0)
      ∧ roundDollarPoints "100.00".toList = 50
      ∧ roundDollarPoints "10.10".toList = 0 := by
  refine ⟨roundDollarPoints_eq total, ?_, by decide!, by decide!⟩
  intro x hx hm hlo hhi
  have hv := ParseFloat_of_readsAsDecimal total x hx
  have hz := isZero_mod_value x 1074 (le_refl _) (by norm_num) hx.2.2.2 hm hlo hhi
  simp only [Nat.sub_self, pow_zero, Nat.mul_one] at hz
  unfold roundDollarPoints
  rw [hv, c1_eq]
  by_cases hw : x.isWhole = true
  · have : 0 ≤ x.exp ∨ 10 ^ (-x.exp).toNat ∣ x.mantissa := by
      simpa [Number.isWhole] using hw
    rw [hz.2 this, hw]
  · have hn : ¬ (0 ≤ x.exp ∨ 10 ^ (-x.exp).toNat ∣ x.mantissa) := by
      simpa [Number.isWhole] using hw
    have : ¬ (F64.mod x.value (F64.fin ((2 ^ 1074 : Nat) : Int))).isZero = true :=
      fun h => hn (hz.1 h)
    simp only [this, hw]

/-- The amended C6 on the total `35.35`, the decimal number 3535 * 10^-2. -/
theorem roundDollarPoints_of_total_witness :
    readsAsDecimal "35.35".toList ⟨false, false, 3535, -2, 5⟩
      ∧ roundDollarPoints "35.35".toList = 0 :=
  ⟨by decide!,
    ((roundDollarPoints_of_total "35.35".toList).2.1 ⟨false, false, 3535, -2, 5⟩ (by decide!)
      (by decide) (by decide) (by decide)).trans (by decide)⟩

/-- C7 as stated fails: the total `0.2500000000000000001` is a well-formed
decimal number that is not a multiple of 0.25, and it earns the 25 points,
because `ParseFloat` rounds it to the `float64` value 0.25. -/
theorem quarterPoints_of_rounded_total :
    readsAsDecimal "0.2500000000000000001".toList ⟨false, false, 2500000000000000001, -19, 21⟩
      ∧ Number.isQuarterMultiple ⟨false, false, 2500000000000000001, -19, 21⟩ = false
      ∧ quarterPoints "0.2500000000000000001".toList = 25
      ∧ ¬ ∀ (total : GoString) (x : Number), readsAsDecimal total x →
          quarterPoints total = if x.isQuarterMultiple then 25 else 0 := by
  have h1 : readsAsDecimal "0.2500000000000000001".toList
      ⟨false, false, 2500000000000000001, -19, 21⟩ := by decide!
  have h2 : Number.isQuarterMultiple ⟨false, false, 2500000000000000001, -19, 21⟩ = false := by
    decide!
  have h3 : quarterPoints "0.2500000000000000001".toList = 25 := by decide!
  refine ⟨h1, h2, h3, fun hall => ?_⟩
  have h := hall _ _ h1
  rw [h2, h3] at h
  exact absurd h (by decide)

/-- C7, amended: the contribution of rule 3 is 25 if the `float64` that
`ParseFloat` returns for the total is finite and a multiple of 0.25, and 0
otherwise, whatever rule 2 adds.  For a total that is a well-formed decimal
number of at most 15 digits with a decimal exponent between -300 and 290, this
is the case exactly when the decimal number is a multiple of 0.25.  The total
`100.00` earns the 25 points, the total `10.10` does not, and the total
`12.25` earns them without earning the 50 points of rule 2. -/
theorem quarterPoints_of_total (total : GoString) :
    quarterPoints total = (if (ParseFloat total).1.isQuarterMultiple then 25 else 0)
      ∧ (∀ x : Number, readsAsDecimal total x → x.mantissa < 10 ^ 15 → -300 ≤ x.exp →
          x.exp ≤ 290 → quarterPoints total = if x.isQuarterMultiple then 25 else 0)
      ∧ quarterPoints "100.00".toList = 25
      ∧ quarterPoints "10.10".toList = 0
      ∧ (quarterPoints "12.25".toList = 25 ∧ roundDollarPoints "12.25".toList = 0) := by
  refine ⟨quarterPoints_eq total, ?_, by decide!, by decide!, by decide!, by decide!⟩
  intro x hx hm hlo hhi
  have hv := ParseFloat_of_readsAsDecimal total x hx
  have hz := isZero_mod_value x 1072 (by norm_num) (le_refl _) hx.2.2.2 hm hlo hhi
  have e4 : 2 ^ (1074 - 1072) = 4 := by norm_num
  rw [e4] at hz
  unfold quarterPoints
  rw [hv, F64.c025_eq]
  by_cases hw : x.isQuarterMultiple = true
  · have : 0 ≤ x.exp ∨ 10 ^ (-x.exp).toNat ∣ x.mantissa * 4 := by
      simpa [Number.isQuarterMultiple] using hw
    rw [hz.2 this, hw]
  · have hn : ¬ (0 ≤ x.exp ∨ 10 ^ (-x.exp).toNat ∣ x.mantissa * 4) := by
      simpa [Number.isQuarterMultiple] using hw
    have : ¬ (F64.mod x.value (F64.fin ((2 ^ 1072 : Nat) : Int))).isZero = true :=
      fun h => hn (hz.1 h)
    simp only [this, hw]

/-- The amended C7 on the total `9.00`, the decimal number 900 * 10^-2. -/
theorem quarterPoints_of_total_witness :
    readsAsDecimal "9.00".toList ⟨false, false, 900, -2, 4⟩
      ∧ quarterPoints "9.00".toList = 25 :=
  ⟨by decide!,
    ((quarterPoints_of_total "9.00".toList).2.1 ⟨false, false, 900, -2, 4⟩ (by decide!)
      (by decide) (by decide) (by decide)).trans (by decide)⟩

/-! ## Claim C8 -/

/-- C8: for a receipt with `n` items the contribution of rule 4 is
`floor(n / 2) * 5`, whatever the descriptions and prices of the items; an
unpaired last item adds nothing, and five items give 10 points. -/
theorem pairPoints_is_five_per_pair (items : List Item) (h : 32 * items.length < 2 ^ 64) :
    pairPoints items.length = ((items.length / 2 : Nat) : Int) * 5
      ∧ (∀ other : List Item, other.length = items.length →
          pairPoints other.length = pairPoints items.length)
      ∧ pairPoints (items.length / 2 * 2) = pairPoints items.length
      ∧ (items.length = 5 → pairPoints items.length = 10) := by
  have h1 := pairPoints_eq items.length h
  refine ⟨by rw [h1]; push_cast; rfl, fun other ho => by rw [ho], ?_, ?_⟩
  · have hb : 32 * (items.length / 2 * 2) < 2 ^ 64 :=
      lt_of_le_of_lt (Nat.mul_le_mul_left _ (Nat.div_mul_le_self _ _)) h
    have he : items.length / 2 * 2 / 2 = items.length / 2 := by omega
    rw [h1, pairPoints_eq _ hb, he]
  · intro h5
    rw [h1, h5]
    rfl

/-- C8 on the five items of the `Target` receipt. -/
theorem pairPoints_is_five_per_pair_witness :
    pairPoints targetReceipt.Items.length = 10 :=
  (pairPoints_is_five_per_pair targetReceipt.Items (by decide)).2.2.2 (by decide)

/-! ## Rule 5 -/

theorem ceil_fin (z : Int) :
    F64.ceil (F64.fin z) = F64.fin (-((-z) / (F64.one : Int)) * (F64.one : Int)) := rfl

/-- When `math.Ceil(x)` is a finite value within the `int` range, `int` of it
is that value. -/
theorem floatToInt_ceil_of_fits (arch : Arch) (x : F64) (w : Int) (hw : F64.ceil x = F64.fin w)
    (h1 : -9223372036854775808 * (F64.one : Int) ≤ w)
    (h2 : w ≤ 9223372036854775807 * (F64.one : Int)) :
    floatToInt arch (F64.ceil x) * (F64.one : Int) = w := by
  have hU : (0 : Int) < (F64.one : Int) := by exact_mod_cast F64.one_pos
  cases x with
  | nan => simp [F64.ceil] at hw
  | inf s => simp [F64.ceil] at hw
  | fin z =>
      rw [ceil_fin] at hw ⊢
      have hw' : -((-z) / (F64.one : Int)) * (F64.one : Int) = w := by
        simpa using hw
      have b1 : -9223372036854775808 ≤ -((-z) / (F64.one : Int)) := by
        by_contra hc
        have : -((-z) / (F64.one : Int)) ≤ -9223372036854775808 - 1 := by omega
        have := Int.mul_le_mul_of_nonneg_right this (le_of_lt hU)
        rw [hw'] at this
        linarith
      have b2 : -((-z) / (F64.one : Int)) ≤ 9223372036854775807 := by
        by_contra hc
        have : 9223372036854775807 + 1 ≤ -((-z) / (F64.one : Int)) := by omega
        have := Int.mul_le_mul_of_nonneg_right this (le_of_lt hU)
        rw [hw'] at this
        linarith
      rw [floatToInt_fin_mul arch _ b1 b2, hw']

theorem ceil_eq_fin_floatToInt (arch : Arch) (m : Nat) (hm : m ≤ 10 ^ 18 * F64.one) :
    F64.ceil (F64.fin (m : Int))
      = F64.fin (floatToInt arch (F64.ceil (F64.fin (m : Int))) * (F64.one : Int)) := by
  have hb := floatToInt_ceil_bounds arch m (10 ^ 18) hm (by norm_num)
  have hU : (0 : Int) < (F64.one : Int) := by exact_mod_cast F64.one_pos
  have hk0 : (-(m : Int)) / (F64.one : Int) ≤ 0 := Int.ediv_le_of_le_mul hU (by omega)
  have hkB : -((10 ^ 18 : Nat) : Int) ≤ (-(m : Int)) / (F64.one : Int) := by
    apply Int.le_ediv_of_mul_le hU
    have : ((m : Nat) : Int) ≤ ((10 ^ 18 : Nat) : Int) * (F64.one : Int) := by exact_mod_cast hm
    linarith
  have e18 : ((10 ^ 18 : Nat) : Int) = 1000000000000000000 := by norm_num
  rw [e18] at hkB
  rw [ceil_fin, floatToInt_fin_mul arch _ (by omega) (by omega)]

theorem ceil_price_649 :
    F64.ceil (F64.mul (ParseFloat "6.49".toList).1 F64.c02) = F64.fin (2 * (F64.one : Int)) := by
  have h : F64.ceil (F64.mul (ParseFloat "6.49".toList).1 F64.c02)
      = F64.fin ((2 * 2 ^ 1074 : Nat) : Int) := by decide!
  rw [h]
  unfold F64.one
  push_cast
  rfl

/-! ## Rule 5: the exact ceiling on decimal prices of at most 15 digits -/

namespace F64

theorem lt_two_pow_bitLenAux (fuel : Nat) : ∀ n, n ≤ fuel → n < 2 ^ bitLenAux fuel n := by
  induction fuel with
  | zero => intro n h; simp [bitLenAux]; omega
  | succ f ih =>
      intro n hf
      by_cases h0 : n = 0
      · simp [bitLenAux, h0]
      · simp only [bitLenAux, h0, if_false]
        have := ih (n / 2) (by omega)
        rw [pow_succ]
        omega

theorem lt_two_pow_bitLen (n : Nat) : n < 2 ^ bitLen n :=
  lt_two_pow_bitLenAux n n (le_refl n)

theorem roundHalfEven_mul_right (a d k : Nat) (hk : 0 < k) :
    roundHalfEven (a * k) (d * k) = roundHalfEven a d := by
  unfold roundHalfEven
  simp only
  rw [Nat.mul_div_mul_right _ _ hk, Nat.mul_mod_mul_right]
  have e1 : 2 * (a % d * k) < d * k ↔ 2 * (a % d) < d := by
    rw [← Nat.mul_assoc]
    exact Nat.mul_lt_mul_right hk
  have e2 : d * k < 2 * (a % d * k) ↔ d < 2 * (a % d) := by
    rw [← Nat.mul_assoc]
    exact Nat.mul_lt_mul_right hk
  simp only [e1, e2]

theorem roundHalfEven_of_small_rem (q r d : Nat) (h : 2 * r < d) :
    roundHalfEven (q * d + r) d = q := by
  have hd : 0 < d := by omega
  have hr : r < d := by omega
  unfold roundHalfEven
  simp only
  have e1 : (q * d + r) / d = q := by
    rw [Nat.add_comm, Nat.add_mul_div_right _ _ hd, Nat.div_eq_of_lt hr]; simp
  have e2 : (q * d + r) % d = r := by
    rw [Nat.add_comm, Nat.add_mul_mod_self_right, Nat.mod_eq_of_lt hr]
  rw [e1, e2, if_pos h]

/-- A rational that is an integer below `2^53` is rounded to itself. -/
theorem roundMagnitude_of_dvd (num den : Nat) (hden : 0 < den) (h : den ∣ num)
    (hq : num / den < 2 ^ 53) : roundMagnitude num den = num / den * one := by
  obtain ⟨p, rfl⟩ := h
  rw [Nat.mul_div_cancel_left _ hden] at hq ⊢
  unfold roundMagnitude
  simp only
  have ht : den * p * one / den = p * one := by
    rw [Nat.mul_assoc, Nat.mul_div_cancel_left _ hden]
  rw [ht]
  set s := bitLen (p * one) - 53 with hs
  have hs1074 : s ≤ 1074 := by
    by_contra hc
    have h0 : p * one ≠ 0 := by
      intro h0
      rw [h0] at hs
      simp [bitLen, bitLenAux] at hs
      omega
    have h1 := two_pow_bitLen_le h0
    have h2 : (2 : Nat) ^ (53 + 1074) ≤ 2 ^ (bitLen (p * one) - 1) :=
      Nat.pow_le_pow_right (by norm_num) (by omega)
    have h3 : p * one < 2 ^ 53 * one := Nat.mul_lt_mul_of_pos_right hq one_pos
    have h4 : 2 ^ 53 * one = 2 ^ (53 + 1074) := by unfold one; rw [← pow_add]
    omega
  have hone : one = 2 ^ (1074 - s) * 2 ^ s := by
    unfold one; rw [← pow_add]; congr 1; omega
  have hD : 0 < den * 2 ^ s := Nat.mul_pos hden (by positivity)
  have hn : den * p * one = (p * 2 ^ (1074 - s)) * (den * 2 ^ s) := by
    rw [hone]; ring
  rw [roundHalfEven_of_dvd _ _ hD ⟨p * 2 ^ (1074 - s), by rw [hn]; ring⟩, hn,
    Nat.mul_div_cancel _ hD, hone]
  ring

/-- The rounding error of `roundMagnitude`, times `2^52`, is at most the
value plus `2^52` units. -/
theorem roundMagnitude_error (num den : Nat) (hden : 0 < den) :
    roundMagnitude num den * den * 2 ^ 52 ≤ num * one * 2 ^ 52 + den * 2 ^ 52 + num * one
      ∧ num * one * 2 ^ 52 ≤ roundMagnitude num den * den * 2 ^ 52 + den * 2 ^ 52 + num * one := by
  obtain ⟨h1, h2⟩ := roundMagnitude_near num den hden
  have h3 := spacing_le (num * one / den)
  set s := bitLen (num * one / den) - 53
  have h4 : den * 2 ^ s * 2 ^ 52 ≤ den * 2 ^ 52 + num * one := by
    have : den * (2 ^ s * 2 ^ 52) ≤ den * max (2 ^ 52) (num * one / den) :=
      Nat.mul_le_mul_left _ h3
    have h5 : den * max (2 ^ 52) (num * one / den) ≤ den * 2 ^ 52 + num * one := by
      rcases le_total (2 ^ 52) (num * one / den) with hc | hc
      · rw [max_eq_right hc]
        exact le_trans (Nat.mul_div_le _ _) (Nat.le_add_left _ _)
      · rw [max_eq_left hc]
        exact Nat.le_add_right _ _
    calc den * 2 ^ s * 2 ^ 52 = den * (2 ^ s * 2 ^ 52) := by ring
      _ ≤ den * max (2 ^ 52) (num * one / den) := this
      _ ≤ _ := h5
  constructor
  · calc roundMagnitude num den * den * 2 ^ 52
        ≤ (num * one + den * 2 ^ s) * 2 ^ 52 := Nat.mul_le_mul_right _ h1
      _ = num * one * 2 ^ 52 + den * 2 ^ s * 2 ^ 52 := by ring
      _ ≤ num * one * 2 ^ 52 + (den * 2 ^ 52 + num * one) := Nat.add_le_add_left h4 _
      _ = _ := by ring
  · calc num * one * 2 ^ 52
        ≤ (roundMagnitude num den * den + den * 2 ^ s) * 2 ^ 52 := Nat.mul_le_mul_right _ h2
      _ = roundMagnitude num den * den * 2 ^ 52 + den * 2 ^ s * 2 ^ 52 := by ring
      _ ≤ roundMagnitude num den * den * 2 ^ 52 + (den * 2 ^ 52 + num * one) :=
          Nat.add_le_add_left h4 _
      _ = _ := by ring

/-- The `float64` product of the integer `5 * n` and the constant `0.2` is `n`:
the excess `n * 2^-54` of the exact product is below half the spacing. -/
theorem roundMagnitude_five_mul (n : Nat) (h1 : 1 ≤ n) (h53 : 5 * n < 2 ^ 53) :
    roundMagnitude (5 * n * one * (3602879701896397 * 2 ^ 1020)) (one * one) = n * one := by
  have hU := one_pos
  have hc5 : 5 * (3602879701896397 * 2 ^ 1020) = one + 2 ^ 1020 := by unfold one; decide!
  have hone : one = 2 ^ 1074 := rfl
  set c : Nat := 3602879701896397 * 2 ^ 1020 with hc
  unfold roundMagnitude
  simp only
  have ht : 5 * n * one * c * one / (one * one) = n * one + n * 2 ^ 1020 := by
    have : 5 * n * one * c * one = (n * (5 * c)) * (one * one) := by ring
    rw [this, Nat.mul_div_cancel _ (Nat.mul_pos hU hU), hc5]
    ring
  rw [ht]
  set v := n * one + n * 2 ^ 1020 with hv
  set s := bitLen v - 53 with hs
  have hnum : 5 * n * one * c * one = v * (one * one) := by
    have : 5 * n * one * c * one = (n * (5 * c)) * (one * one) := by ring
    rw [this, hc5, hv]
    ring
  have hden : one * one * 2 ^ s = 2 ^ s * (one * one) := by ring
  rw [hnum, hden, roundHalfEven_mul_right _ _ _ (Nat.mul_pos hU hU)]
  have hnv : n * one ≤ v := Nat.le_add_right _ _
  have hvge : 2 ^ 1074 ≤ v :=
    calc 2 ^ 1074 = 1 * one := by rw [hone, Nat.one_mul]
      _ ≤ n * one := Nat.mul_le_mul_right _ h1
      _ ≤ v := hnv
  have hv0 : v ≠ 0 := by
    have : 0 < 2 ^ 1074 := by positivity
    omega
  have hlow := two_pow_bitLen_le hv0
  have hup := lt_two_pow_bitLen v
  -- the value is between `2^1074` and `2^1125`
  have hvlt : v < 2 ^ 1125 := by
    have e : v * 5 = (5 * n) * (2 ^ 1074 + 2 ^ 1020) := by rw [hv, hone]; ring
    have : (5 * n) * (2 ^ 1074 + 2 ^ 1020) < 2 ^ 53 * (2 ^ 1074 + 2 ^ 1020) :=
      Nat.mul_lt_mul_of_pos_right h53 (by positivity)
    have e2 : 2 ^ 53 * (2 ^ 1074 + 2 ^ 1020) ≤ 2 ^ 1125 * 5 := by decide!
    omega
  have hb1 : 1074 < bitLen v := by
    by_contra hc'
    have : (2 : Nat) ^ bitLen v ≤ 2 ^ 1074 := Nat.pow_le_pow_right (by norm_num) (by omega)
    omega
  have hb2 : bitLen v ≤ 1125 := by
    by_contra hc'
    have : (2 : Nat) ^ 1125 ≤ 2 ^ (bitLen v - 1) := Nat.pow_le_pow_right (by norm_num) (by omega)
    omega
  have hs1 : s + 53 = bitLen v := by omega
  have hs2 : s ≤ 1072 := by omega
  have hpow : one = 2 ^ (1074 - s) * 2 ^ s := by
    rw [hone, ← pow_add]; congr 1; omega
  have hsplit : v = (n * 2 ^ (1074 - s)) * 2 ^ s + n * 2 ^ 1020 := by
    rw [hv, hpow]; ring
  have hrem : 2 * (n * 2 ^ 1020) < 2 ^ s := by
    have h2 : n * 2 ^ 1074 < 2 ^ s * 2 ^ 53 := by
      rw [← pow_add, hs1, ← hone]
      exact lt_of_le_of_lt hnv hup
    have e : n * 2 ^ 1074 = 2 * (n * 2 ^ 1020) * 2 ^ 53 := by
      have : (2 : Nat) ^ 1074 = 2 * 2 ^ 1020 * 2 ^ 53 := by decide!
      rw [this]; ring
    rw [e] at h2
    exact Nat.lt_of_mul_lt_mul_right h2
  rw [hsplit, roundHalfEven_of_small_rem _ _ _ hrem, hpow]
  ring

/-- Cancelling the common factor `one` and bringing in the denominator of the
first factor in the error bound of a product with `c`. -/
theorem product_error (a c den : Nat) :
    roundMagnitude (a * c) (one * one) * den * one * 2 ^ 52
        ≤ a * den * c * (2 ^ 52 + 1) + den * one * 2 ^ 52
      ∧ a * den * c * 2 ^ 52
        ≤ roundMagnitude (a * c) (one * one) * den * one * 2 ^ 52 + den * one * 2 ^ 52
          + a * den * c := by
  have hU := one_pos
  obtain ⟨h1, h2⟩ := roundMagnitude_error (a * c) (one * one) (Nat.mul_pos hU hU)
  set b := roundMagnitude (a * c) (one * one)
  have e1 : b * (one * one) * 2 ^ 52 = (b * one * 2 ^ 52) * one := by ring
  have e2 : a * c * one * 2 ^ 52 + one * one * 2 ^ 52 + a * c * one
      = (a * c * 2 ^ 52 + one * 2 ^ 52 + a * c) * one := by ring
  have e3 : a * c * one * 2 ^ 52 = (a * c * 2 ^ 52) * one := by ring
  have e4 : b * (one * one) * 2 ^ 52 + one * one * 2 ^ 52 + a * c * one
      = (b * one * 2 ^ 52 + one * 2 ^ 52 + a * c) * one := by ring
  rw [e1, e2] at h1
  rw [e3, e4] at h2
  have g1 := Nat.le_of_mul_le_mul_right h1 hU
  have g2 := Nat.le_of_mul_le_mul_right h2 hU
  constructor
  · calc b * den * one * 2 ^ 52 = (b * one * 2 ^ 52) * den := by ring
      _ ≤ (a * c * 2 ^ 52 + one * 2 ^ 52 + a * c) * den := Nat.mul_le_mul_right _ g1
      _ = _ := by ring
  · calc a * den * c * 2 ^ 52 = (a * c * 2 ^ 52) * den := by ring
      _ ≤ (b * one * 2 ^ 52 + one * 2 ^ 52 + a * c) * den := Nat.mul_le_mul_right _ g2
      _ = _ := by ring

/-- The heart of rule 5 on decimal prices: for the price `N / den` with
`N < 10^15`, not a multiple of 5, the `float64` product with `0.2` lies
strictly above `n` and not above `n + 1`, where `n` is the integer part of
the exact fifth of the price. -/
theorem product_between (N den n : Nat) (hden : 0 < den) (hd : den ≤ 10 ^ 300)
    (hN : N < 10 ^ 15) (h1 : n * (5 * den) < N) (h2 : N < (n + 1) * (5 * den)) :
    n * one < roundMagnitude (roundMagnitude N den * (3602879701896397 * 2 ^ 1020)) (one * one)
      ∧ roundMagnitude (roundMagnitude N den * (3602879701896397 * 2 ^ 1020)) (one * one)
        ≤ (n + 1) * one := by
  obtain ⟨f1, f2⟩ := roundMagnitude_error N den hden
  obtain ⟨f3, f4⟩ := product_error (roundMagnitude N den) (3602879701896397 * 2 ^ 1020) den
  set a := roundMagnitude N den
  set b := roundMagnitude (a * (3602879701896397 * 2 ^ 1020)) (one * one)
  have key : n * den * one < b * den ∧ b * den ≤ (n * den + den) * one := by
    generalize a * den = X at f1 f2 f3 f4
    generalize b * den = Y at f3 f4
    have hV : n * (5 * den) = 5 * (n * den) := by ring
    have hV2 : (n + 1) * (5 * den) = 5 * (n * den) + 5 * den := by ring
    rw [hV] at h1
    rw [hV2] at h2
    generalize n * den = V at h1 h2
    unfold one at f1 f2 f3 f4 ⊢
    norm_num at f1 f2 f3 f4 hd hN ⊢
    constructor <;> omega
  constructor
  · have : (n * one) * den < b * den := by
      calc (n * one) * den = n * den * one := by ring
        _ < b * den := key.1
    exact Nat.lt_of_mul_lt_mul_right this
  · have : b * den ≤ ((n + 1) * one) * den := by
      calc b * den ≤ (n * den + den) * one := key.2
        _ = ((n + 1) * one) * den := by ring
    exact Nat.le_of_mul_le_mul_right this hden

theorem mul_c02_fin (a : Nat) :
    mul (fin (a : Int)) c02
      = round false (a * (3602879701896397 * 2 ^ 1020)) (one * one) := by
  rw [c02_eq, mul_fin_fin]
  have hneg : (decide ((a : Int) < 0) != decide (((3602879701896397 * 2 ^ 1020 : Nat) : Int) < 0))
      = false := by
    have e1 : ¬ ((a : Int) < 0) := by omega
    have e2 : ¬ (((3602879701896397 * 2 ^ 1020 : Nat) : Int) < 0) := by
      exact not_lt.2 (Int.ofNat_nonneg _)
    simp [e1, e2]
  rw [hneg]
  simp only [Int.natAbs_ofNat]

theorem round_of_lt (num den : Nat) (h : roundMagnitude num den < 2 ^ 2098) :
    round false num den = fin ((roundMagnitude num den : Nat) : Int) := by
  unfold round
  simp only
  rw [if_neg (by omega)]
  simp

/-- The `float64` product with `0.2` of the `float64` nearest to `N / den`,
for `N < 10^15` and `den ≤ 10^300`, is a finite value of `b` units with
`(w - 1) * one < b ≤ w * one`, where `w` is the least integer with
`N ≤ w * (5 * den)`. -/
theorem mul_c02_round (N den : Nat) (hden : 0 < den) (hd : den ≤ 10 ^ 300) (hN : N < 10 ^ 15) :
    ∃ b w : Nat, mul (round false N den) c02 = fin (b : Int)
      ∧ w * one < b + one ∧ b ≤ w * one
      ∧ w * (5 * den) < N + 5 * den ∧ N ≤ w * (5 * den) := by
  have hU := one_pos
  have hNfin : N < 2 ^ 1023 := lt_trans hN (by norm_num)
  have hafin := roundMagnitude_finite N den hden hNfin
  rw [round_of_lt _ _ hafin, mul_c02_fin]
  have h5 : 0 < 5 * den := by omega
  by_cases hdiv : 5 * den ∣ N
  · obtain ⟨n, hn⟩ := hdiv
    have hdvd : den ∣ N := ⟨5 * n, by rw [hn]; ring⟩
    have hq : N / den = 5 * n := by
      rw [hn, show 5 * den * n = den * (5 * n) by ring, Nat.mul_div_cancel_left _ hden]
    have hnle : 5 * n ≤ N := by
      rw [← hq]; exact Nat.div_le_self _ _
    have h53 : 5 * n < 2 ^ 53 := lt_of_le_of_lt hnle (lt_trans hN (by norm_num))
    have ha : roundMagnitude N den = 5 * n * one := by
      rw [roundMagnitude_of_dvd N den hden hdvd (by rw [hq]; exact h53), hq]
    rw [ha]
    have hb : roundMagnitude (5 * n * one * (3602879701896397 * 2 ^ 1020)) (one * one)
        = n * one := by
      rcases Nat.eq_zero_or_pos n with h0 | hpos
      · subst h0
        have := roundMagnitude_of_dvd 0 (one * one) (Nat.mul_pos hU hU) (dvd_zero _) (by simp)
        simpa using this
      · exact roundMagnitude_five_mul n hpos h53
    have hbfin : roundMagnitude (5 * n * one * (3602879701896397 * 2 ^ 1020)) (one * one)
        < 2 ^ 2098 := by
      rw [hb]
      have : n * one < 2 ^ 53 * 2 ^ 1074 := by
        unfold one
        exact Nat.mul_lt_mul_of_pos_right (by omega) (by positivity)
      exact lt_trans this (by rw [← pow_add]; exact Nat.pow_lt_pow_right (by norm_num) (by norm_num))
    refine ⟨n * one, n, ?_, by omega, le_refl _, ?_, ?_⟩
    · rw [round_of_lt _ _ hbfin, hb]
    · rw [hn, show n * (5 * den) = 5 * den * n by ring]; omega
    · rw [hn, show n * (5 * den) = 5 * den * n by ring]
  · have hr : N % (5 * den) ≠ 0 := fun h => hdiv (Nat.dvd_of_mod_eq_zero h)
    have hdm := Nat.div_add_mod N (5 * den)
    have hlt := Nat.mod_lt N h5
    set n := N / (5 * den) with hn
    have h1 : n * (5 * den) < N := by
      rw [Nat.mul_comm]; omega
    have h2 : N < (n + 1) * (5 * den) := by
      rw [Nat.add_mul, Nat.one_mul, Nat.mul_comm n]; omega
    obtain ⟨g1, g2⟩ := product_between N den n hden hd hN h1 h2
    set b := roundMagnitude (roundMagnitude N den * (3602879701896397 * 2 ^ 1020)) (one * one)
    have hnN : n ≤ N := Nat.div_le_self _ _
    have hbfin : b < 2 ^ 2098 := by
      have : (n + 1) * one < 2 ^ 53 * 2 ^ 1074 := by
        unfold one
        exact Nat.mul_lt_mul_of_pos_right
          (lt_of_le_of_lt (Nat.succ_le_of_lt (lt_of_le_of_lt hnN hN)) (by norm_num)) (by positivity)
      exact lt_of_le_of_lt g2
        (lt_trans this (by rw [← pow_add]; exact Nat.pow_lt_pow_right (by norm_num) (by norm_num)))
    refine ⟨b, n + 1, round_of_lt _ _ hbfin, ?_, g2, ?_, le_of_lt h2⟩
    · rw [Nat.add_mul, Nat.one_mul]; omega
    · rw [Nat.add_mul, Nat.one_mul]; omega

end F64

/-- `math.Ceil` of a finite value of `b` units with `(w - 1) * one < b ≤ w * one`
is the integer `w`. -/
theorem ceil_of_between (b w : Nat) (h1 : w * F64.one < b + F64.one) (h2 : b ≤ w * F64.one) :
    F64.ceil (F64.fin (b : Int)) = F64.fin ((w : Int) * (F64.one : Int)) := by
  have hU : (0 : Int) < (F64.one : Int) := by exact_mod_cast F64.one_pos
  have h1' : (w : Int) * (F64.one : Int) < (b : Int) + (F64.one : Int) := by exact_mod_cast h1
  have h2' : (b : Int) ≤ (w : Int) * (F64.one : Int) := by exact_mod_cast h2
  have g1 : -(w : Int) ≤ (-(b : Int)) / (F64.one : Int) :=
    Int.le_ediv_of_mul_le hU (by linarith)
  have g2 : (-(b : Int)) / (F64.one : Int) < -(w : Int) + 1 :=
    Int.ediv_lt_of_lt_mul hU (by linarith)
  have : -((-(b : Int)) / (F64.one : Int)) = (w : Int) := by omega
  rw [ceil_fin, this]

/-- The least integer not below the rational `N / den * (1/5)`. -/
theorem ceil_fifth (N den w : Nat) (hden : 0 < den)
    (h1 : w * (5 * den) < N + 5 * den) (h2 : N ≤ w * (5 * den)) :
    Int.ceil ((N : ℚ) / (den : ℚ) * (1 / 5)) = (w : Int) := by
  have hd : (0 : ℚ) < (den : ℚ) := by exact_mod_cast hden
  have h5 : (0 : ℚ) < (den : ℚ) * 5 := by positivity
  have e : (N : ℚ) / (den : ℚ) * (1 / 5) = (N : ℚ) / ((den : ℚ) * 5) := by
    field_simp
  rw [e, Int.ceil_eq_iff]
  have h1' : (w : ℚ) * (5 * (den : ℚ)) < (N : ℚ) + 5 * (den : ℚ) := by exact_mod_cast h1
  have h2' : (N : ℚ) ≤ (w : ℚ) * (5 * (den : ℚ)) := by exact_mod_cast h2
  constructor
  · rw [lt_div_iff₀ h5]
    push_cast
    linarith
  · rw [div_le_iff₀ h5]
    push_cast
    linarith

/-- Rule 5 on the `float64` nearest to `N / den`, for `N < 10^15` and
`den ≤ 10^300`: `int(math.Ceil(price * 0.2))` is the least integer not below
the exact fifth of `N / den`. -/
theorem floatToInt_ceil_fifth (arch : Arch) (N den : Nat) (hden : 0 < den) (hd : den ≤ 10 ^ 300)
    (hN : N < 10 ^ 15) :
    floatToInt arch (F64.ceil (F64.mul (F64.round false N den) F64.c02))
      = Int.ceil ((N : ℚ) / (den : ℚ) * (1 / 5)) := by
  obtain ⟨b, w, hm, h1, h2, h3, h4⟩ := F64.mul_c02_round N den hden hd hN
  rw [hm, ceil_of_between b w h1 h2, ceil_fifth N den w hden h3 h4]
  have hw : w ≤ N + 5 := by
    have : w * (5 * den) < (N + 5) * (5 * den) := by
      calc w * (5 * den) < N + 5 * den := h3
        _ ≤ N * (5 * den) + 5 * (5 * den) := by
          have : N ≤ N * (5 * den) := Nat.le_mul_of_pos_right _ (by omega)
          omega
        _ = (N + 5) * (5 * den) := by ring
    exact le_of_lt (Nat.lt_of_mul_lt_mul_right this)
  have hN' : N < 1000000000000000 := by norm_num at hN; exact hN
  exact floatToInt_fin_mul arch w (by omega) (by omega)

/-- The number written by a non-negative decimal text, as a quotient. -/
theorem Number.toRat_decimal (x : Number) (hneg : x.neg = false) (hhex : x.hex = false) :
    x.toRat = if 0 ≤ x.exp then ((x.mantissa * 10 ^ x.exp.toNat : Nat) : ℚ) / ((1 : Nat) : ℚ)
      else (x.mantissa : ℚ) / ((10 ^ (-x.exp).toNat : Nat) : ℚ) := by
  unfold Number.toRat
  simp only [hneg, hhex, Bool.false_eq_true, if_false, one_mul]
  by_cases h : 0 ≤ x.exp
  · rw [if_pos h]
    obtain ⟨k, hk⟩ := Int.eq_ofNat_of_zero_le h
    rw [hk]
    simp
  · rw [if_neg h]
    obtain ⟨k, hk⟩ := Int.exists_eq_neg_ofNat (le_of_lt (not_le.1 h))
    rw [hk]
    simp [div_eq_mul_inv]

/-- Rule 5 on a price read as a non-negative decimal number below 10^15 of at
most 15 digits and at most 300 decimals. -/
theorem floatToInt_ceil_of_decimal (arch : Arch) (price : GoString) (x : Number)
    (hx : readsAsDecimal price x) (hneg : x.neg = false)
    (hm : x.mantissa * 10 ^ x.exp.toNat < 10 ^ 15) (he : -300 ≤ x.exp) :
    floatToInt arch (F64.ceil (F64.mul (ParseFloat price).1 F64.c02))
      = Int.ceil (x.toRat * (1 / 5)) := by
  rw [ParseFloat_of_readsAsDecimal price x hx, Number.value_decimal x hx.2.2.2,
    Number.toRat_decimal x hneg hx.2.2.2, hneg]
  by_cases h : 0 ≤ x.exp
  · rw [if_pos h, if_pos h]
    exact floatToInt_ceil_fifth arch _ 1 (by norm_num) (by norm_num) hm
  · rw [if_neg h, if_neg h]
    have hk : (-x.exp).toNat ≤ 300 := by omega
    have h0 : x.exp.toNat = 0 := by omega
    rw [h0, pow_zero, Nat.mul_one] at hm
    exact floatToInt_ceil_fifth arch _ _ (by positivity)
      (Nat.pow_le_pow_right (by norm_num) hk) hm

/-! ## Claim C9 -/

/-- C9 as stated fails whether `ceil(price * 0.2)` is read as the `float64`
value or as the exact number.  For the description `abc` (length 3) and the
price `1e30`, `math.Ceil(price * 0.2)` is the `float64` value
200000000000000018050673803264, which no `int` holds; what the item
contributes is left to the implementation (on amd64 the least `int`).  For
the description `abc` and the price `22517998136852496`, which `float64`
holds exactly, a fifth of the price is 4503599627370499.2, whose ceiling is
4503599627370500, and the item contributes 4503599627370499 on every
platform: the `float64` product is rounded to an integer before
`math.Ceil`. -/
theorem itemPoints_of_huge_price :
    len (TrimSpace hugePriceItem.ShortDescription) = 3
      ∧ F64.ceil (F64.mul (ParseFloat hugePriceItem.Price).1 F64.c02)
        = F64.fin ((200000000000000018050673803264 * 2 ^ 1074 : Nat) : Int)
      ∧ itemPoints amd64 hugePriceItem = -9223372036854775808
      ∧ (¬ ∀ (arch : Arch) (item : Item),
          0 < len (TrimSpace item.ShortDescription) →
          len (TrimSpace item.ShortDescription) % 3 = 0 →
          F64.ceil (F64.mul (ParseFloat item.Price).1 F64.c02)
            = F64.fin (itemPoints arch item * (F64.one : Int)))
      ∧ len (TrimSpace longPriceItem.ShortDescription) = 3
      ∧ readsAsDecimal longPriceItem.Price ⟨false, false, 22517998136852496, 0, 17⟩
      ∧ (ParseFloat longPriceItem.Price).1
        = F64.fin ((22517998136852496 * 2 ^ 1074 : Nat) : Int)
      ∧ Int.ceil (Number.toRat ⟨false, false, 22517998136852496, 0, 17⟩ * (1 / 5))
        = 4503599627370500
      ∧ (∀ arch : Arch, itemPoints arch longPriceItem = 4503599627370499)
      ∧ ¬ ∀ (arch : Arch) (item : Item) (x : Number),
          0 < len (TrimSpace item.ShortDescription) →
          len (TrimSpace item.ShortDescription) % 3 = 0 →
          readsAsDecimal item.Price x →
          itemPoints arch item = Int.ceil (x.toRat * (1 / 5)) := by
  have h1 : len (TrimSpace hugePriceItem.ShortDescription) = 3 := by decide
  have h2 : F64.ceil (F64.mul (ParseFloat hugePriceItem.Price).1 F64.c02)
      = F64.fin ((200000000000000018050673803264 * 2 ^ 1074 : Nat) : Int) := by decide!
  have h3 : itemPoints amd64 hugePriceItem = -9223372036854775808 := by decide!
  have g1 : len (TrimSpace longPriceItem.ShortDescription) = 3 := by decide
  have g2 : readsAsDecimal longPriceItem.Price ⟨false, false, 22517998136852496, 0, 17⟩ := by
    decide!
  have g3 : (ParseFloat longPriceItem.Price).1
      = F64.fin ((22517998136852496 * 2 ^ 1074 : Nat) : Int) := by decide!
  have g4 : Int.ceil (Number.toRat ⟨false, false, 22517998136852496, 0, 17⟩ * (1 / 5))
      = 4503599627370500 := by
    rw [Int.ceil_eq_iff]
    norm_num [Number.toRat]
  have g5 : ∀ arch : Arch, itemPoints arch longPriceItem = 4503599627370499 := by
    intro arch
    exact itemPoints_of_ceil arch longPriceItem 4503599627370499 (by rw [g1]) (by decide!)
      (by decide)
  refine ⟨h1, h2, h3, fun hall => ?_, g1, g2, g3, g4, g5, fun hall => ?_⟩
  · have h := hall amd64 hugePriceItem (by rw [h1]; decide) (by rw [h1])
    rw [h2, h3] at h
    have hne : F64.fin ((200000000000000018050673803264 * 2 ^ 1074 : Nat) : Int)
        ≠ F64.fin (-9223372036854775808 * (F64.one : Int)) := by decide!
    exact hne h
  · have h := hall amd64 longPriceItem _ (by rw [g1]; decide) (by rw [g1]) g2
    rw [g4, g5 amd64] at h
    exact absurd h (by decide)

/-- C9, amended: with `L` the length in bytes of the trimmed description, an
item with `L` a positive multiple of 3 contributes
`int(math.Ceil(price * 0.2))`, computed in `float64` on the parsed price.
For a price text that reads as a non-negative decimal number below 10^15,
of at most 15 digits (leading zeros not counted) and at most 300 decimals,
this is the exact number: the least integer not below a fifth of the price
written.  Whenever the `float64` value `math.Ceil(price * 0.2)` is within
the `int` range, in particular for every price that parses to a value between
0 and 10^18, the conversion to `int` keeps that value.  An item with `L`
not a multiple of 3 contributes 0.  A trimmed description of length 9 with the
price `6.49` contributes 2. -/
theorem itemPoints_of_description_length (arch : Arch) (item : Item) :
    (0 < len (TrimSpace item.ShortDescription) →
      len (TrimSpace item.ShortDescription) % 3 = 0 →
        itemPoints arch item
            = floatToInt arch (F64.ceil (F64.mul (ParseFloat item.Price).1 F64.c02))
          ∧ (∀ x : Number, readsAsDecimal item.Price x → x.neg = false →
              x.mantissa * 10 ^ x.exp.toNat < 10 ^ 15 → -300 ≤ x.exp →
              itemPoints arch item = Int.ceil (x.toRat * (1 / 5)))
          ∧ (∀ w : Int, F64.ceil (F64.mul (ParseFloat item.Price).1 F64.c02) = F64.fin w →
              -9223372036854775808 * (F64.one : Int) ≤ w →
              w ≤ 9223372036854775807 * (F64.one : Int) →
              itemPoints arch item * (F64.one : Int) = w)
          ∧ (priceInRange item.Price = true →
              F64.ceil (F64.mul (ParseFloat item.Price).1 F64.c02)
                = F64.fin (itemPoints arch item * (F64.one : Int))))
      ∧ (len (TrimSpace item.ShortDescription) % 3 ≠ 0 → itemPoints arch item = 0)
      ∧ (len (TrimSpace item.ShortDescription) = 9 → item.Price = "6.49".toList →
          itemPoints arch item = 2) := by
  have key := itemPoints_of_multiple arch item
  refine ⟨fun _ h3 => ⟨key h3, ?_, ?_, ?_⟩, ?_, ?_⟩
  · intro x hx hneg hm he
    rw [key h3]
    exact floatToInt_ceil_of_decimal arch item.Price x hx hneg hm he
  · intro w hw h1 h2
    rw [key h3]
    exact floatToInt_ceil_of_fits arch _ w hw h1 h2
  · intro hp
    rw [key h3]
    unfold priceInRange at hp
    cases hv : (ParseFloat item.Price).1 with
    | nan => simp [hv] at hp
    | inf s => simp [hv] at hp
    | fin z =>
        simp only [hv, Bool.and_eq_true, decide_eq_true_eq] at hp
        obtain ⟨m, hm, hle⟩ := F64.mul_c02_of_nonneg z hp.1 hp.2
        rw [hm]
        exact ceil_eq_fin_floatToInt arch m hle
  · intro h3
    have : ¬ ((len (TrimSpace item.ShortDescription) : Nat) : Int) % 3 = 0 := by omega
    simp [itemPoints, this]
  · intro h9 hp
    rw [key (by rw [h9]), hp, ceil_price_649]
    exact floatToInt_fin_mul arch 2 (by decide) (by decide)

/-- The amended C9 on items priced `6.49`: the trimmed description `Gatorade`
has 8 characters and the item contributes 0; the trimmed description
`Gatorade1` has 9 and the item contributes 2, the least integer not below
the fifth of 649/100. -/
theorem itemPoints_of_description_length_witness :
    itemPoints amd64 ⟨"  Gatorade ".toList, "6.49".toList⟩ = 0
      ∧ itemPoints amd64 ⟨" Gatorade1 ".toList, "6.49".toList⟩ = 2
      ∧ readsAsDecimal "6.49".toList ⟨false, false, 649, -2, 4⟩
      ∧ Number.toRat ⟨false, false, 649, -2, 4⟩ = 649 / 100
      ∧ itemPoints amd64 ⟨" Gatorade1 ".toList, "6.49".toList⟩
        = Int.ceil (Number.toRat ⟨false, false, 649, -2, 4⟩ * (1 / 5)) :=
  ⟨(itemPoints_of_description_length amd64 ⟨"  Gatorade ".toList, "6.49".toList⟩).2.1 (by decide),
    (itemPoints_of_description_length amd64 ⟨" Gatorade1 ".toList, "6.49".toList⟩).2.2
      (by decide) rfl,
    by decide!,
    by norm_num [Number.toRat],
    ((itemPoints_of_description_length amd64 ⟨" Gatorade1 ".toList, "6.49".toList⟩).1
      (by decide) (by decide)).2.1 ⟨false, false, 649, -2, 4⟩ (by decide!) rfl (by decide)
      (by decide)⟩

/-! ## Rule 6: reading back a formatted date -/

theorem utf8EncodeRune_digitChar : ∀ d < 10, utf8EncodeRune (digitChar d) = [48 + d] := by
  decide

theorem isDigitByte_digit : ∀ d < 10, isDigitByte (48 + d) = true := by decide

theorem utf8Bytes_formatDate (year month day : Nat) :
    utf8Bytes (formatDate year month day)
      = [48 + year / 1000 % 10, 48 + year / 100 % 10, 48 + year / 10 % 10, 48 + year % 10, 45,
          48 + month / 10 % 10, 48 + month % 10, 45, 48 + day / 10 % 10, 48 + day % 10] := by
  have hd : ∀ n : Nat, utf8EncodeRune (digitChar (n % 10)) = [48 + n % 10] :=
    fun n => utf8EncodeRune_digitChar _ (Nat.mod_lt _ (by norm_num))
  have hm : utf8EncodeRune '-' = [45] := by decide
  simp only [formatDate, utf8Bytes, hd, hm, List.cons_append, List.nil_append]

theorem getnum_two_digits (a b : Nat) (ha : a < 10) (hb : b < 10) (rest : List Nat) :
    getnum ((48 + a) :: (48 + b) :: rest) true = some (a * 10 + b, rest) := by
  have h0 : '0'.toNat = 48 := by decide
  simp [getnum, isDigitByte_digit a ha, isDigitByte_digit b hb, h0]

theorem parseDate_formatDate (year month day : Nat) (h : isCalendarDate year month day) :
    parseDate (formatDate year month day) = some ⟨year, month, day, 0, 0⟩ := by
  obtain ⟨hy, hm1, hm2, hd1, hd2⟩ := h
  have hd3 : day ≤ 31 := by
    have : daysIn month year ≤ 31 := by
      unfold daysIn
      split_ifs
      · norm_num
      · interval_cases month <;> simp
    omega
  have h0 : '0'.toNat = 48 := by decide
  have hdash : '-'.toNat = 45 := by decide
  have d1 := isDigitByte_digit (year / 1000 % 10) (Nat.mod_lt _ (by norm_num))
  have d2 := isDigitByte_digit (year / 100 % 10) (Nat.mod_lt _ (by norm_num))
  have d3 := isDigitByte_digit (year / 10 % 10) (Nat.mod_lt _ (by norm_num))
  have d4 := isDigitByte_digit (year % 10) (Nat.mod_lt _ (by norm_num))
  have g1 := getnum_two_digits (month / 10 % 10) (month % 10) (Nat.mod_lt _ (by norm_num))
    (Nat.mod_lt _ (by norm_num)) [45, 48 + day / 10 % 10, 48 + day % 10]
  have g2 := getnum_two_digits (day / 10 % 10) (day % 10) (Nat.mod_lt _ (by norm_num))
    (Nat.mod_lt _ (by norm_num)) []
  have ey : (year / 1000 % 10) * 1000 + (year / 100 % 10) * 100 + (year / 10 % 10) * 10
      + year % 10 = year := by omega
  have em : month / 10 % 10 * 10 + month % 10 = month := by omega
  have ed : day / 10 % 10 * 10 + day % 10 = day := by omega
  unfold parseDate
  rw [utf8Bytes_formatDate]
  simp only [d1, d2, d3, d4, h0, hdash, g1, g2, Nat.add_sub_cancel_left, ey, em, ed]
  simp
  omega

/-! ## Claim C10 -/

/-- C10: for a purchase date that is the text `YYYY-MM-DD` of a calendar date,
the contribution of rule 6 is 6 if the day of the month is odd and 0 if it is
even; `2022-01-01` contributes 6 and `2022-01-02` contributes 0. -/
theorem oddDayPoints_of_calendar_date (year month day : Nat)
    (h : isCalendarDate year month day) :
    oddDayPoints (formatDate year month day) = (if day % 2 = 1 then 6 else 0)
      ∧ oddDayPoints "2022-01-01".toList = 6
      ∧ oddDayPoints "2022-01-02".toList = 0 := by
  refine ⟨?_, by decide, by decide⟩
  unfold oddDayPoints
  rw [parseDate_formatDate year month day h]
  simp only [timeOrZero, Option.getD_some, Time.Day]
  by_cases hodd : day % 2 = 1
  · have : ¬ ((day : Int) % 2 = 0) := by omega
    simp [hodd, this]
  · have : (day : Int) % 2 = 0 := by omega
    simp [hodd, this]

/-- C10 on the leap day of 2024, whose text is `2024-02-29`. -/
theorem oddDayPoints_of_calendar_date_witness :
    formatDate 2024 2 29 = "2024-02-29".toList ∧ oddDayPoints "2024-02-29".toList = 6 :=
  ⟨by decide, (oddDayPoints_of_calendar_date 2024 2 29 (by decide)).1⟩

/-! ## Rules 6 and 7: texts that `time.Parse` accepts -/

theorem utf8EncodeRune_head_ge (c : Char) (h : ¬ c.toNat < 128) :
    ∃ b rest, utf8EncodeRune c = b :: rest ∧ 128 ≤ b := by
  unfold utf8EncodeRune
  simp only
  split_ifs
  · exact ⟨_, _, rfl, by omega⟩
  · exact ⟨_, _, rfl, by omega⟩
  · exact ⟨_, _, rfl, by omega⟩

/-- A string whose bytes are all below 128 is the string of those bytes. -/
theorem eq_of_utf8Bytes_ascii (s : GoString) :
    ∀ bs : List Nat, utf8Bytes s = bs → (∀ b ∈ bs, b < 128) → s = bs.map Char.ofNat := by
  induction s with
  | nil =>
      intro bs h _
      simp only [utf8Bytes] at h
      subst h; rfl
  | cons c cs ih =>
      intro bs h hb
      by_cases hc : c.toNat < 128
      · have e : utf8EncodeRune c = [c.toNat] := by simp [utf8EncodeRune, hc]
        rw [utf8Bytes, e] at h
        subst h
        have := ih (utf8Bytes cs) rfl (fun b hb' => hb b (by simp [hb']))
        simp only [List.singleton_append, List.map_cons]
        rw [← this]
        congr 1
        exact (Char.ofNat_toNat c).symm
      · obtain ⟨b, rest, e, hge⟩ := utf8EncodeRune_head_ge c hc
        rw [utf8Bytes, e] at h
        subst h
        have := hb b (by simp)
        omega

theorem lt_of_isDigitByte (b : Nat) (h : isDigitByte b = true) : 48 ≤ b ∧ b ≤ 57 := by
  have h0 : '0'.toNat = 48 := by decide
  have h9 : '9'.toNat = 57 := by decide
  simpa [isDigitByte, h0, h9] using h

theorem getnum_fixed_inv (s rest : List Nat) (n : Nat) (h : getnum s true = some (n, rest)) :
    ∃ a b, a < 10 ∧ b < 10 ∧ s = (48 + a) :: (48 + b) :: rest ∧ n = a * 10 + b := by
  have h0 : '0'.toNat = 48 := by decide
  unfold getnum at h
  cases s with
  | nil => simp at h
  | cons x xs =>
      simp only at h
      by_cases hx : isDigitByte x = true
      · simp only [hx, not_true_eq_false, if_false] at h
        cases xs with
        | nil => simp at h
        | cons y ys =>
            simp only at h
            by_cases hy : isDigitByte y = true
            · simp only [hy, if_true, Option.some.injEq, Prod.mk.injEq, h0] at h
              obtain ⟨h1, h2⟩ := h
              have bx := lt_of_isDigitByte x hx
              have by' := lt_of_isDigitByte y hy
              refine ⟨x - 48, y - 48, by omega, by omega, ?_, by omega⟩
              rw [← h2]
              congr 1
              · omega
              · congr 1; omega
            · simp [hy] at h
      · simp [hx] at h

/-- A text that `time.Parse` accepts with the layout `2006-01-02` is the text
`YYYY-MM-DD` of a calendar date. -/
theorem formatDate_of_parseDate (s : GoString) (t : Time) (h : parseDate s = some t) :
    ∃ year month day, isCalendarDate year month day ∧ s = formatDate year month day
      ∧ t = ⟨year, month, day, 0, 0⟩ := by
  have h0 : '0'.toNat = 48 := by decide
  have hdash : '-'.toNat = 45 := by decide
  unfold parseDate at h
  split at h
  · rename_i y1 y2 y3 y4 rest hbytes
    split_ifs at h with hd
    obtain ⟨hy1, hy2, hy3, hy4⟩ := hd
    simp only [h0, hdash] at h
    generalize hyear : (y1 - 48) * 1000 + (y2 - 48) * 100 + (y3 - 48) * 10 + (y4 - 48) = year at h
    cases rest with
    | nil => simp at h
    | cons dash1 rest1 =>
        simp only at h
        by_cases hd1 : dash1 = 45
        · simp only [hd1, ne_eq, not_true_eq_false, if_false] at h
          cases hg1 : getnum rest1 true with
          | none => simp [hg1] at h
          | some r1 =>
              obtain ⟨month, rest2⟩ := r1
              simp only [hg1] at h
              by_cases hm : month = 0 ∨ 12 < month
              · simp [hm] at h
              · simp only [hm, if_false] at h
                cases rest2 with
                | nil => simp at h
                | cons dash2 rest3 =>
                    simp only at h
                    by_cases hd2 : dash2 = 45
                    · simp only [hd2, ne_eq, not_true_eq_false, if_false] at h
                      cases hg2 : getnum rest3 true with
                      | none => simp [hg2] at h
                      | some r2 =>
                          obtain ⟨day, rest4⟩ := r2
                          simp only [hg2] at h
                          by_cases hr : rest4 = []
                          · subst hr
                            simp only [not_true_eq_false, if_false] at h
                            by_cases hday : day < 1 ∨ daysIn month year < day
                            · rw [if_pos hday] at h
                              cases h
                            · rw [if_neg hday] at h
                              simp only [Option.some.injEq] at h
                              obtain ⟨ma, mb, hma, hmb, e1, em⟩ := getnum_fixed_inv _ _ _ hg1
                              obtain ⟨da, db, hda, hdb, e2, ed⟩ := getnum_fixed_inv _ _ _ hg2
                              have b1 := lt_of_isDigitByte y1 hy1
                              have b2 := lt_of_isDigitByte y2 hy2
                              have b3 := lt_of_isDigitByte y3 hy3
                              have b4 := lt_of_isDigitByte y4 hy4
                              subst hd1 hd2 e1 e2
                              refine ⟨year, month, day, ?_, ?_, h.symm⟩
                              · refine ⟨by omega, by omega, by omega, by omega, by omega⟩
                              · have hall : ∀ b ∈ utf8Bytes s, b < 128 := by
                                  rw [hbytes]
                                  intro b hb
                                  simp only [List.mem_cons, List.mem_singleton,
                                    List.not_mem_nil, or_false] at hb
                                  omega
                                rw [eq_of_utf8Bytes_ascii s _ hbytes (by rw [← hbytes]; exact hall)]
                                have q1 : year / 1000 % 10 = y1 - 48 := by omega
                                have q2 : year / 100 % 10 = y2 - 48 := by omega
                                have q3 : year / 10 % 10 = y3 - 48 := by omega
                                have q4 : year % 10 = y4 - 48 := by omega
                                have q5 : month / 10 % 10 = ma := by omega
                                have q6 : month % 10 = mb := by omega
                                have q7 : day / 10 % 10 = da := by omega
                                have q8 : day % 10 = db := by omega
                                have r1 : 48 + (y1 - 48) = y1 := by omega
                                have r2 : 48 + (y2 - 48) = y2 := by omega
                                have r3 : 48 + (y3 - 48) = y3 := by omega
                                have r4 : 48 + (y4 - 48) = y4 := by omega
                                simp only [formatDate, digitChar, q1, q2, q3, q4, q5, q6, q7, q8,
                                  r1, r2, r3, r4, List.map_cons, List.map_nil]
                          · rw [if_pos hr] at h
                            cases h
                    · simp [hd2] at h
        · simp [hd1] at h
  · cases h

theorem getnum_two_digits_free (a b : Nat) (ha : a < 10) (hb : b < 10) (rest : List Nat) :
    getnum ((48 + a) :: (48 + b) :: rest) false = some (a * 10 + b, rest) := by
  have h0 : '0'.toNat = 48 := by decide
  simp [getnum, isDigitByte_digit a ha, isDigitByte_digit b hb, h0]

theorem parseClock_formatClock (hour minute : Nat) (hh : hour < 24) (hm : minute < 60) :
    parseClock (formatClock hour minute) = some ⟨0, 1, 1, hour, minute⟩ := by
  have hd : ∀ n : Nat, utf8EncodeRune (digitChar (n % 10)) = [48 + n % 10] :=
    fun n => utf8EncodeRune_digitChar _ (Nat.mod_lt _ (by norm_num))
  have hc : utf8EncodeRune ':' = [58] := by decide
  have hb : utf8Bytes (formatClock hour minute)
      = [48 + hour / 10 % 10, 48 + hour % 10, 58, 48 + minute / 10 % 10, 48 + minute % 10] := by
    simp only [formatClock, utf8Bytes, hd, hc, List.cons_append, List.nil_append]
  have h0 : '0'.toNat = 48 := by decide
  have hcol : ':'.toNat = 58 := by decide
  have g1 := getnum_two_digits_free (hour / 10 % 10) (hour % 10) (Nat.mod_lt _ (by norm_num))
    (Nat.mod_lt _ (by norm_num)) [58, 48 + minute / 10 % 10, 48 + minute % 10]
  have g2 := getnum_two_digits (minute / 10 % 10) (minute % 10) (Nat.mod_lt _ (by norm_num))
    (Nat.mod_lt _ (by norm_num)) []
  have eh : hour / 10 % 10 * 10 + hour % 10 = hour := by omega
  have em : minute / 10 % 10 * 10 + minute % 10 = minute := by omega
  unfold parseClock
  rw [hb]
  simp only [g1, g2, hcol, eh, em]
  simp
  omega

/-! ## Claims C11 and C12 -/

/-- C11 as stated fails: the empty string, `not-a-date` and `2022-02-30` fail
to parse and each gets the 6 points of rule 6, because `time.Parse` then
returns the zero `Time`, whose day of the month is 1. -/
theorem oddDayPoints_of_unparsed_examples :
    parseDate "".toList = none ∧ oddDayPoints "".toList = 6
      ∧ parseDate "not-a-date".toList = none ∧ oddDayPoints "not-a-date".toList = 6
      ∧ parseDate "2022-02-30".toList = none ∧ oddDayPoints "2022-02-30".toList = 6
      ∧ ¬ ∀ purchaseDate : GoString, parseDate purchaseDate = none →
          oddDayPoints purchaseDate = 0 := by
  refine ⟨by decide, by decide, by decide, by decide, by decide, by decide, fun hall => ?_⟩
  have h := hall "".toList (by decide)
  have h6 : oddDayPoints "".toList = 6 := by decide
  rw [h6] at h
  exact absurd h (by decide)

/-- C11, amended: a purchase date that is not the text `YYYY-MM-DD` of a
calendar date fails to parse; for every purchase date that fails to parse,
the value kept is the zero `Time`, whose day of the month is 1, and rule 6
contributes 6 points. -/
theorem oddDayPoints_of_unparsed_date (purchaseDate : GoString) :
    ((∀ year month day, isCalendarDate year month day →
        purchaseDate ≠ formatDate year month day) → parseDate purchaseDate = none)
      ∧ (parseDate purchaseDate = none →
          timeOrZero (parseDate purchaseDate) = Time.zero ∧ Time.zero.Day = 1
            ∧ oddDayPoints purchaseDate = 6) := by
  constructor
  · intro h
    cases hp : parseDate purchaseDate with
    | none => rfl
    | some t =>
        obtain ⟨y, m, d, hc, he, -⟩ := formatDate_of_parseDate _ _ hp
        exact absurd he (h y m d hc)
  · intro h
    refine ⟨by rw [h]; rfl, rfl, ?_⟩
    unfold oddDayPoints
    rw [h]
    decide

/-- The amended C11 on `2022-02-30`, which is not the text of a calendar date. -/
theorem oddDayPoints_of_unparsed_date_witness :
    parseDate "2022-02-30".toList = none ∧ oddDayPoints "2022-02-30".toList = 6 :=
  have hnone : parseDate "2022-02-30".toList = none :=
    (oddDayPoints_of_unparsed_date "2022-02-30".toList).1 (fun y m d hc he => by
      have hp := parseDate_formatDate y m d hc
      rw [← he] at hp
      have hn : parseDate "2022-02-30".toList = none := by decide
      rw [hn] at hp
      cases hp)
  ⟨hnone, ((oddDayPoints_of_unparsed_date "2022-02-30".toList).2 hnone).2.2⟩

/-- C12: the contribution of rule 7 is 10 if the purchase time parses with an
hour from 14 to 15 and 0 otherwise; a purchase time that fails to parse
contributes 0.  For the text `HH:MM` of a time of day the contribution is 10
exactly when 14 <= hour < 16.  `14:33` and `14:00` contribute 10, `16:00` and
`13:59` contribute 0. -/
theorem afternoonPoints_of_time (purchaseTime : GoString) :
    (parseClock purchaseTime = none → afternoonPoints purchaseTime = 0)
      ∧ (∀ t : Time, parseClock purchaseTime = some t →
          afternoonPoints purchaseTime = if 14 ≤ t.hour ∧ t.hour < 16 then 10 else 0)
      ∧ (∀ hour minute : Nat, hour < 24 → minute < 60 →
          afternoonPoints (formatClock hour minute) = if 14 ≤ hour ∧ hour < 16 then 10 else 0)
      ∧ afternoonPoints "14:33".toList = 10 ∧ afternoonPoints "14:00".toList = 10
      ∧ afternoonPoints "16:00".toList = 0 ∧ afternoonPoints "13:59".toList = 0 := by
  have key : ∀ (s : GoString) (t : Time), parseClock s = some t →
      afternoonPoints s = if 14 ≤ t.hour ∧ t.hour < 16 then 10 else 0 := by
    intro s t ht
    unfold afternoonPoints
    rw [ht]
    simp only [timeOrZero, Option.getD_some, Time.Hour, ge_iff_le]
    by_cases hc : 14 ≤ t.hour ∧ t.hour < 16
    · have : (14 : Int) ≤ (t.hour : Int) ∧ (t.hour : Int) < 16 := by omega
      rw [if_pos this, if_pos hc]
    · have : ¬ ((14 : Int) ≤ (t.hour : Int) ∧ (t.hour : Int) < 16) := by omega
      rw [if_neg this, if_neg hc]
  refine ⟨?_, key purchaseTime, ?_, by decide, by decide, by decide, by decide⟩
  · intro h
    unfold afternoonPoints
    rw [h]
    decide
  · intro hour minute hh hm
    exact key _ _ (parseClock_formatClock hour minute hh hm)

/-- C12 on the text of 15:59. -/
theorem afternoonPoints_of_time_witness :
    formatClock 15 59 = "15:59".toList ∧ afternoonPoints "15:59".toList = 10 :=
  ⟨by decide, ((afternoonPoints_of_time []).2.2.1 15 59 (by decide) (by decide)).trans
    (by decide)⟩

/-! ## The errors of `ParseFloat` -/

/-- The three outcomes of `ParseFloat`: no error, a syntax error with the
value 0, or a range error with an infinity. -/
theorem ParseFloat_outcomes (s : GoString) :
    (ParseFloat s).2 = none
      ∨ ParseFloat s = (F64.fin 0, some NumError.ErrSyntax)
      ∨ ∃ neg, ParseFloat s = (F64.inf neg, some NumError.ErrRange) := by
  unfold ParseFloat
  simp only
  cases special (utf8Bytes s) with
  | some r =>
      obtain ⟨v, n⟩ := r
      simp only
      split_ifs
      · exact Or.inl rfl
      · exact Or.inr (Or.inl rfl)
  | none =>
      simp only
      cases readFloat (utf8Bytes s) with
      | none => exact Or.inr (Or.inl rfl)
      | some x =>
          simp only
          split_ifs
          · exact Or.inr (Or.inl rfl)
          · cases x.value with
            | nan => exact Or.inl rfl
            | inf neg => exact Or.inr (Or.inr ⟨neg, rfl⟩)
            | fin z => exact Or.inl rfl

theorem points_of_zero_total (total : GoString) (h : (ParseFloat total).1 = F64.fin 0) :
    roundDollarPoints total = 50 ∧ quarterPoints total = 25 := by
  rw [roundDollarPoints_eq, quarterPoints_eq, h]
  simp [F64.isWhole, F64.isQuarterMultiple]

theorem points_of_infinite_total (total : GoString) (neg : Bool)
    (h : (ParseFloat total).1 = F64.inf neg) :
    roundDollarPoints total = 0 ∧ quarterPoints total = 0 := by
  rw [roundDollarPoints_eq, quarterPoints_eq, h]
  simp [F64.isWhole, F64.isQuarterMultiple]

/-! ## Claim C13 -/

/-- C13 as stated fails: the total `1e400` fails to parse with a range error,
the value returned with the error is +Inf and not 0, `math.Mod` of it is `NaN`,
and the receipt gets neither the 50 nor the 25 points. -/
theorem points_of_total_out_of_range :
    ParseFloat "1e400".toList = (F64.inf false, some NumError.ErrRange)
      ∧ roundDollarPoints "1e400".toList = 0 ∧ quarterPoints "1e400".toList = 0
      ∧ ¬ ∀ total : GoString, (ParseFloat total).2 ≠ none →
          (ParseFloat total).1 = F64.fin 0 ∧ roundDollarPoints total = 50
            ∧ quarterPoints total = 25 := by
  have h1 : ParseFloat "1e400".toList = (F64.inf false, some NumError.ErrRange) := by decide!
  have h2 := points_of_infinite_total "1e400".toList false (by rw [h1])
  refine ⟨h1, h2.1, h2.2, fun hall => ?_⟩
  have h := (hall "1e400".toList (by rw [h1]; simp)).1
  rw [h1] at h
  cases h

/-- C13, amended: for every total that fails to parse with a syntax error the
value used by rules 2 and 3 is 0 and the receipt gets both the 50 and the 25
points; for every total that fails with a range error (a number too large for
a `float64`) the value is an infinity and the receipt gets neither.  These are
the only two errors. -/
theorem points_of_total_parse_error (total : GoString) :
    ((ParseFloat total).2 = some NumError.ErrSyntax →
        (ParseFloat total).1 = F64.fin 0 ∧ roundDollarPoints total = 50
          ∧ quarterPoints total = 25)
      ∧ ((ParseFloat total).2 = some NumError.ErrRange →
        (∃ neg, (ParseFloat total).1 = F64.inf neg) ∧ roundDollarPoints total = 0
          ∧ quarterPoints total = 0)
      ∧ ((ParseFloat total).2 = none ∨ (ParseFloat total).2 = some NumError.ErrSyntax
          ∨ (ParseFloat total).2 = some NumError.ErrRange) := by
  rcases ParseFloat_outcomes total with h | h | ⟨neg, h⟩
  · refine ⟨fun he => ?_, fun he => ?_, Or.inl h⟩ <;> rw [h] at he <;> cases he
  · have hv : (ParseFloat total).1 = F64.fin 0 := by rw [h]
    refine ⟨fun _ => ⟨hv, points_of_zero_total total hv⟩, fun he => ?_, Or.inr (Or.inl ?_)⟩
    · rw [h] at he; cases he
    · rw [h]
  · have hv : (ParseFloat total).1 = F64.inf neg := by rw [h]
    refine ⟨fun he => ?_, fun _ => ⟨⟨neg, hv⟩, points_of_infinite_total total neg hv⟩,
      Or.inr (Or.inr ?_)⟩
    · rw [h] at he; cases he
    · rw [h]

/-- The amended C13 on the total `abc`, a syntax error, and on the total
`-1e999`, a range error. -/
theorem points_of_total_parse_error_witness :
    (roundDollarPoints "abc".toList = 50 ∧ quarterPoints "abc".toList = 25)
      ∧ (roundDollarPoints "-1e999".toList = 0 ∧ quarterPoints "-1e999".toList = 0) :=
  ⟨((points_of_total_parse_error "abc".toList).1 (by decide!)).2,
    ((points_of_total_parse_error "-1e999".toList).2.1 (by decide!)).2⟩

/-! ## The allocator and the growth of the map -/

theorem generateUuid_first_fresh (receipts : Registry) (draws rest : List Nat) (id : GoString)
    (h : generateUuid receipts draws = some (id, rest)) :
    ∃ pre u, draws = pre ++ u :: rest ∧ id = uuidString u
      ∧ ∀ v ∈ pre, (receipts.get (uuidString v)).isSome = true := by
  induction draws with
  | nil => simp [generateUuid] at h
  | cons u us ih =>
      simp only [generateUuid] at h
      by_cases hc : (receipts.get (uuidString u)).isSome = true
      · rw [if_pos hc] at h
        obtain ⟨pre, w, h1, h2, h3⟩ := ih h
        refine ⟨u :: pre, w, by rw [h1]; rfl, h2, ?_⟩
        intro v hv
        rcases List.mem_cons.1 hv with hv | hv
        · rw [hv]; exact hc
        · exact h3 v hv
      · rw [if_neg hc] at h
        simp only [Option.some.injEq, Prod.mk.injEq] at h
        exact ⟨[], u, by rw [h.2]; rfl, h.1.symm, by simp⟩

theorem generateUuid_returns (receipts : Registry) (draws : List Nat)
    (h : ∃ u ∈ draws, receipts.get (uuidString u) = none) :
    ∃ id rest, generateUuid receipts draws = some (id, rest) := by
  induction draws with
  | nil => obtain ⟨u, hu, -⟩ := h; cases hu
  | cons u us ih =>
      simp only [generateUuid]
      by_cases hc : (receipts.get (uuidString u)).isSome = true
      · rw [if_pos hc]
        apply ih
        obtain ⟨v, hv, hn⟩ := h
        rcases List.mem_cons.1 hv with hv | hv
        · subst hv; rw [hn] at hc; cases hc
        · exact ⟨v, hv, hn⟩
      · rw [if_neg hc]
        exact ⟨_, _, rfl⟩

theorem Registry.set_of_get_none (receipts : Registry) (id : GoString) (receipt : Receipt)
    (h : receipts.get id = none) : receipts.set id receipt = receipts ++ [(id, receipt)] := by
  induction receipts with
  | nil => rfl
  | cons e rest ih =>
      obtain ⟨k, v⟩ := e
      by_cases hk : id = k
      · rw [Registry.get, if_pos hk] at h
        cases h
      · rw [Registry.get, if_neg hk] at h
        rw [Registry.set, if_neg hk, ih h]
        rfl

theorem Registry.get_eq_none_iff (receipts : Registry) (id : GoString) :
    receipts.get id = none ↔ id ∉ receipts.map Prod.fst := by
  induction receipts with
  | nil => simp [Registry.get]
  | cons e rest ih =>
      obtain ⟨k, v⟩ := e
      by_cases hk : id = k
      · rw [Registry.get, if_pos hk]
        simp only [List.map_cons, List.mem_cons]
        exact ⟨fun h => Option.noConfusion h, fun h => absurd (Or.inl hk) h⟩
      · rw [Registry.get, if_neg hk, ih]
        simp only [List.map_cons, List.mem_cons, not_or]
        exact ⟨fun h => ⟨hk, h⟩, fun h => h.2⟩

theorem submitAll_fresh (subs : List (Receipt × List Nat)) :
    ∀ (start final : Registry) (ids : List GoString),
      submitAll start subs = some (ids, final) →
      ids.Nodup ∧ (∀ id ∈ ids, start.get id = none)
        ∧ final.length = start.length + subs.length
        ∧ final.map Prod.fst = start.map Prod.fst ++ ids := by
  induction subs with
  | nil =>
      intro start final ids h
      simp only [submitAll, Option.some.injEq, Prod.mk.injEq] at h
      obtain ⟨h1, h2⟩ := h
      subst h1 h2
      simp
  | cons sub rest ih =>
      intro start final ids h
      obtain ⟨receipt, draws⟩ := sub
      simp only [submitAll, processReceiptHandler, submitRequest, ne_eq, not_true_eq_false,
        if_false] at h
      cases hg : generateUuid start draws with
      | none => simp [hg] at h
      | some res =>
          obtain ⟨id, draws1⟩ := res
          simp only [hg] at h
          cases hr : submitAll (start.set id receipt) rest with
          | none => simp [hr] at h
          | some res2 =>
              obtain ⟨ids1, final1⟩ := res2
              simp only [hr, Option.some.injEq, Prod.mk.injEq] at h
              obtain ⟨h1, h2⟩ := h
              subst h1 h2
              obtain ⟨hnd, hfr, hlen, hkeys⟩ := ih _ _ _ hr
              obtain ⟨hfresh, -⟩ := generateUuid_fresh _ _ _ _ hg
              have hset := Registry.set_of_get_none start id receipt hfresh
              refine ⟨?_, ?_, ?_, ?_⟩
              · refine List.nodup_cons.2 ⟨fun hmem => ?_, hnd⟩
                have := hfr id hmem
                rw [Registry.get_set_self] at this
                cases this
              · intro id2 hmem
                rcases List.mem_cons.1 hmem with hmem | hmem
                · rw [hmem]; exact hfresh
                · have h2 := hfr id2 hmem
                  rw [Registry.get_eq_none_iff] at h2 ⊢
                  rw [hset] at h2
                  intro hc
                  exact h2 (by simp [hc])
              · rw [hlen, hset]
                simp
                omega
              · rw [hkeys, hset]
                simp

/-! ## Claims C14 and C15 -/

/-- C14: whenever `generateUuid` returns, the identifier returned is not a key
of the map, and it is the string of the first draw of the random source whose
string is not a key, all earlier draws having collided; the call returns as
soon as the source yields such a draw.  The call only reads the map: the map
the handler then inserts into is the map as it was before the call. -/
theorem generateUuid_returns_first_unallocated (receipts : Registry) (draws rest : List Nat)
    (id : GoString) (h : generateUuid receipts draws = some (id, rest)) :
    receipts.get id = none
      ∧ (∃ pre u, draws = pre ++ u :: rest ∧ id = uuidString u
          ∧ (∀ v ∈ pre, (receipts.get (uuidString v)).isSome = true)
          ∧ receipts.get (uuidString u) = none)
      ∧ (∀ more : List Nat, (∃ u ∈ more, receipts.get (uuidString u) = none) →
          ∃ id2 rest2, generateUuid receipts more = some (id2, rest2))
      ∧ ∀ receipt : Receipt,
          processReceiptHandler receipts draws (submitRequest receipt)
            = some (Response.ReceiptResponse id, receipts.set id receipt, rest) := by
  obtain ⟨hfresh, -⟩ := generateUuid_fresh _ _ _ _ h
  obtain ⟨pre, u, h1, h2, h3⟩ := generateUuid_first_fresh _ _ _ _ h
  refine ⟨hfresh, ⟨pre, u, h1, h2, h3, by rw [← h2]; exact hfresh⟩,
    fun more hm => generateUuid_returns receipts more hm, fun receipt => ?_⟩
  simp [processReceiptHandler, submitRequest, h]

/-- C14 on the map after two submissions and the draws 7, 9, 11, 13: the
first two collide and the identifier of the draw 11 is returned. -/
theorem generateUuid_returns_first_unallocated_witness :
    generateUuid exampleRegistry [7, 9, 11, 13] = some (uuidString 11, [13])
      ∧ exampleRegistry.get (uuidString 11) = none :=
  ⟨by decide!, (generateUuid_returns_first_unallocated exampleRegistry [7, 9, 11, 13] [13]
    (uuidString 11) (by decide!)).1⟩

/-- C15: starting from any map, the submissions of a sequence that have all
returned got pairwise distinct identifiers, none of which was a key of the
starting map, and the map has as many more entries as there were submissions:
its keys are the old keys followed by the new identifiers, all distinct when
the old keys were. -/
theorem submissions_get_distinct_ids (start final : Registry)
    (subs : List (Receipt × List Nat)) (ids : List GoString)
    (h : submitAll start subs = some (ids, final)) :
    ids.length = subs.length ∧ ids.Nodup
      ∧ (∀ id ∈ ids, start.get id = none)
      ∧ final.length = start.length + subs.length
      ∧ final.map Prod.fst = start.map Prod.fst ++ ids
      ∧ ((start.map Prod.fst).Nodup → (final.map Prod.fst).Nodup) := by
  obtain ⟨hlen, -, -⟩ := submitAll_spec subs _ _ _ h
  obtain ⟨hnd, hfr, hl, hk⟩ := submitAll_fresh subs _ _ _ h
  refine ⟨hlen, hnd, hfr, hl, hk, fun hs => ?_⟩
  rw [hk]
  refine List.Nodup.append hs hnd ?_
  intro id h1 h2
  exact (Registry.get_eq_none_iff start id).1 (hfr id h2) h1

/-- C15 on a third submission to the map of the first two, whose draws
collide twice. -/
theorem submissions_get_distinct_ids_witness :
    submitAll exampleRegistry exampleLater
        = some ([uuidString 11], exampleRegistry.set (uuidString 11) targetReceipt)
      ∧ (exampleRegistry.set (uuidString 11) targetReceipt).length = exampleRegistry.length + 1 :=
  ⟨by decide!, (submissions_get_distinct_ids exampleRegistry
    (exampleRegistry.set (uuidString 11) targetReceipt) exampleLater [uuidString 11]
    (by decide!)).2.2.2.1⟩

/-! ## Claims C16 and C17 -/

/-- C16: `getPointsHandler` leaves the map as it was, whatever the request and
whatever the answer (points, not found, bad request, wrong method), so the
same request served twice in a row gets the same answer both times. -/
theorem getPointsHandler_read_only (arch : Arch) (receipts : Registry) (r : Request) :
    (getPointsHandler arch receipts r).2 = receipts
      ∧ getPointsHandler arch (getPointsHandler arch receipts r).2 r
        = getPointsHandler arch receipts r
      ∧ ∀ id : GoString,
          (getPointsHandler arch (getPointsHandler arch receipts (redeemRequest id)).2
              (redeemRequest id)).1
            = (getPointsHandler arch receipts (redeemRequest id)).1 := by
  have h : ∀ q : Request, (getPointsHandler arch receipts q).2 = receipts := by
    intro q
    unfold getPointsHandler
    simp only
    split_ifs
    · rfl
    · rfl
    · cases receipts.get
          (TrimSuffix (TrimPrefix q.Path "/receipts/".toList) "/points".toList) <;> rfl
  refine ⟨h r, by rw [h r], fun id => by rw [h]⟩

/-- C17: `calculatePoints` of a receipt whose items are a permutation of the
items of another receipt, the other fields being the same, is the same
number of points. -/
theorem calculatePoints_of_permuted_items (arch : Arch) (receipt : Receipt) (items : List Item)
    (h : receipt.Items.Perm items) :
    calculatePoints arch { receipt with Items := items } = calculatePoints arch receipt := by
  rw [calculatePoints_eq_wrap, calculatePoints_eq_wrap]
  unfold contributionSum
  simp only
  rw [h.length_eq, (h.map (itemPoints arch)).sum_eq]

/-- C17 on the `Target` receipt and the same receipt with its first two items
exchanged. -/
theorem calculatePoints_of_permuted_items_witness :
    calculatePoints amd64 targetReceiptSwapped = calculatePoints amd64 targetReceipt :=
  calculatePoints_of_permuted_items amd64 targetReceipt targetReceiptSwapped.Items
    (List.Perm.swap _ _ _)

/-! ## Concurrent submissions -/

theorem get?_append_length (done : List Submission) (x : Submission) (l : List Submission) :
    (done ++ x :: l).get? done.length = some x := by
  induction done with
  | nil => rfl
  | cons d ds ih => simpa using ih

theorem set_append_length (done : List Submission) (x y : Submission) (l : List Submission) :
    (done ++ x :: l).set done.length y = done ++ y :: l := by
  induction done with
  | nil => rfl
  | cons d ds ih => simp [ih]

/-- Calls served one after the other do what `submitAll` does. -/
theorem runSchedule_serial (subs : List (Receipt × List Nat)) :
    ∀ (done : List Submission) (start final : Registry) (ids : List GoString),
      submitAll start subs = some (ids, final) →
      runSchedule start (done ++ subs.map fun c => Submission.called c.1 c.2)
          (serialSchedule done.length subs.length)
        = (final, done ++ ids.map Submission.stored) := by
  induction subs with
  | nil =>
      intro done start final ids h
      simp only [submitAll, Option.some.injEq, Prod.mk.injEq] at h
      obtain ⟨h1, h2⟩ := h
      subst h1 h2
      rfl
  | cons sub rest ih =>
      intro done start final ids h
      obtain ⟨receipt, draws⟩ := sub
      simp only [submitAll, processReceiptHandler, submitRequest, ne_eq, not_true_eq_false,
        if_false] at h
      cases hg : generateUuid start draws with
      | none => simp [hg] at h
      | some res =>
          obtain ⟨id, draws1⟩ := res
          simp only [hg] at h
          cases hr : submitAll (start.set id receipt) rest with
          | none => simp [hr] at h
          | some res2 =>
              obtain ⟨ids1, final1⟩ := res2
              simp only [hr, Option.some.injEq, Prod.mk.injEq] at h
              obtain ⟨h1, h2⟩ := h
              subst h1 h2
              have s1 : (Submission.called receipt draws).step start
                  = (Submission.allocated receipt id, start) := by
                simp [Submission.step, hg]
              have s2 : (Submission.allocated receipt id).step start
                  = (Submission.stored id, start.set id receipt) := rfl
              have hi := ih (done ++ [Submission.stored id]) _ _ _ hr
              simp only [List.length_append, List.length_singleton, List.append_assoc,
                List.singleton_append] at hi
              simp only [List.map_cons, List.length_cons, serialSchedule, runSchedule,
                get?_append_length, set_append_length, s1, s2]
              exact hi

/-! ## Claim C18 -/

/-- C18 as stated fails: the program takes no lock.  When the checks of two
concurrent submissions both run before either insert and `uuid.New()` yields
the same value to both, both submissions return the same identifier and the
map keeps only the receipt stored last. -/
theorem concurrent_submissions_share_id :
    runSchedule [] collidingSubmissions [0, 1, 0, 1]
        = ([(uuidString 7, refundReceipt)],
            [Submission.stored (uuidString 7), Submission.stored (uuidString 7)])
      ∧ ¬ ∀ (calls : List (Receipt × List Nat)) (schedule : List Nat) (i j : Nat)
          (a b : GoString),
          (runSchedule [] (calls.map fun c => Submission.called c.1 c.2) schedule).2.get? i
            = some (Submission.stored a) →
          (runSchedule [] (calls.map fun c => Submission.called c.1 c.2) schedule).2.get? j
            = some (Submission.stored b) →
          i ≠ j → a ≠ b := by
  refine ⟨by decide!, fun hall => ?_⟩
  exact hall [(targetReceipt, [7]), (refundReceipt, [7])] [0, 1, 0, 1] 0 1 (uuidString 7)
    (uuidString 7) (by decide!) (by decide!) (by decide) rfl

/-- C18, amended: with each statement taken as one step, the check of line 80
and the insert of line 81 are two steps and no lock joins them.  The
identifier is not a key of the map when the check runs, and the check leaves
the map as it is; when the insert runs right after the check, the two steps
have the effect of the handler served alone, and calls served one after the
other get pairwise distinct identifiers.  When the checks of two calls both
run before either insert and both end on the same draw, both calls return
that identifier and the map keeps the receipt inserted last. -/
theorem submission_steps (receipts : Registry) (receipt : Receipt) (draws rest : List Nat)
    (receiptId : GoString) (h : generateUuid receipts draws = some (receiptId, rest)) :
    (Submission.called receipt draws).step receipts
        = (Submission.allocated receipt receiptId, receipts)
      ∧ receipts.get receiptId = none
      ∧ (∀ other : Registry, (Submission.allocated receipt receiptId).step other
          = (Submission.stored receiptId, other.set receiptId receipt))
      ∧ runSchedule receipts [Submission.called receipt draws] [0, 0]
          = (receipts.set receiptId receipt, [Submission.stored receiptId])
      ∧ processReceiptHandler receipts draws (submitRequest receipt)
          = some (Response.ReceiptResponse receiptId, receipts.set receiptId receipt, rest)
      ∧ (∀ (subs : List (Receipt × List Nat)) (start final : Registry) (ids : List GoString),
          submitAll start subs = some (ids, final) →
          runSchedule start (subs.map fun c => Submission.called c.1 c.2)
              (serialSchedule 0 subs.length)
            = (final, ids.map Submission.stored) ∧ ids.Nodup)
      ∧ ∀ (receipt2 : Receipt) (draws2 rest2 : List Nat),
          generateUuid receipts draws2 = some (receiptId, rest2) →
          runSchedule receipts
              [Submission.called receipt draws, Submission.called receipt2 draws2] [0, 1, 0, 1]
            = ((receipts.set receiptId receipt).set receiptId receipt2,
                [Submission.stored receiptId, Submission.stored receiptId])
          ∧ ((receipts.set receiptId receipt).set receiptId receipt2).get receiptId
            = some receipt2 := by
  have h1 : (Submission.called receipt draws).step receipts
      = (Submission.allocated receipt receiptId, receipts) := by
    simp [Submission.step, h]
  refine ⟨h1, (generateUuid_fresh _ _ _ _ h).1, fun other => rfl, ?_, ?_, ?_, ?_⟩
  · simp only [runSchedule, List.get?, h1, List.set]
    rfl
  · simp [processReceiptHandler, submitRequest, h]
  · intro subs start final ids hs
    exact ⟨runSchedule_serial subs [] start final ids hs, (submitAll_fresh subs _ _ _ hs).1⟩
  · intro receipt2 draws2 rest2 h2
    have h3 : (Submission.called receipt2 draws2).step receipts
        = (Submission.allocated receipt2 receiptId, receipts) := by
      simp [Submission.step, h2]
    refine ⟨?_, Registry.get_set_self _ _ _⟩
    simp only [runSchedule, List.get?, h1, h3, List.set]
    rfl

/-- The amended C18 on the two submissions of the example run one after the
other: the second one sees the identifier of the first and takes the next
draw. -/
theorem submission_steps_witness :
    runSchedule [] [Submission.called targetReceipt [7, 7]] [0, 0]
        = ([(uuidString 7, targetReceipt)], [Submission.stored (uuidString 7)])
      ∧ runSchedule [] [Submission.called targetReceipt [7, 7],
            Submission.called refundReceipt [7, 9]] [0, 0, 1, 1]
          = (exampleRegistry, [Submission.stored (uuidString 7), Submission.stored (uuidString 9)]) :=
  ⟨(submission_steps [] targetReceipt [7, 7] [7] (uuidString 7) (by decide!)).2.2.2.1,
    by decide!⟩

/-! ## Claim C19 -/

theorem TrimSpace_of_all_space (s : GoString) (h : ∀ c ∈ s, isSpace c = true) :
    TrimSpace s = [] := by
  unfold TrimSpace
  have : s.dropWhile isSpace = [] := List.dropWhile_eq_nil_iff.2 h
  rw [this]
  rfl

/-- C19 as stated fails: an item with the empty description, or with a
description of white space only, and the price `6.49` contributes 2 points,
since the trimmed length 0 passes the test `descLength%3 == 0`. -/
theorem itemPoints_of_empty_description_example :
    len (TrimSpace "".toList) = 0 ∧ itemPoints amd64 ⟨"".toList, "6.49".toList⟩ = 2
      ∧ len (TrimSpace " \t ".toList) = 0 ∧ itemPoints amd64 ⟨" \t ".toList, "6.49".toList⟩ = 2
      ∧ ¬ ∀ (arch : Arch) (item : Item), len (TrimSpace item.ShortDescription) = 0 →
          itemPoints arch item = 0 := by
  have h2 : itemPoints amd64 ⟨"".toList, "6.49".toList⟩ = 2 := by decide!
  refine ⟨by decide, h2, by decide, by decide!, fun hall => ?_⟩
  have h := hall amd64 ⟨"".toList, "6.49".toList⟩ (by decide)
  rw [h2] at h
  exact absurd h (by decide)

/-- C19, amended: a description that is empty or made of white space only has
the trimmed length 0, and an item with the trimmed length 0 is scored like
every item whose trimmed length is a multiple of 3: it contributes
`int(math.Ceil(price * 0.2))`, which is 2 for the price `6.49` and 0 when the
price parses to 0. -/
theorem itemPoints_of_empty_description (arch : Arch) (item : Item) :
    ((∀ c ∈ item.ShortDescription, isSpace c = true) →
        len (TrimSpace item.ShortDescription) = 0)
      ∧ (len (TrimSpace item.ShortDescription) = 0 →
          itemPoints arch item
              = floatToInt arch (F64.ceil (F64.mul (ParseFloat item.Price).1 F64.c02))
            ∧ (item.Price = "6.49".toList → itemPoints arch item = 2)
            ∧ ((ParseFloat item.Price).1 = F64.fin 0 → itemPoints arch item = 0)) := by
  constructor
  · intro h
    rw [TrimSpace_of_all_space _ h]
    rfl
  · intro h0
    have key : itemPoints arch item
        = floatToInt arch (F64.ceil (F64.mul (ParseFloat item.Price).1 F64.c02)) := by
      simp [itemPoints, h0]
    refine ⟨key, fun hp => ?_, fun hz => ?_⟩
    · rw [key, hp, ceil_price_649]
      exact floatToInt_fin_mul arch 2 (by decide) (by decide)
    · rw [key, hz]
      have hm : F64.mul (F64.fin 0) F64.c02 = F64.fin ((0 : Nat) : Int) := by decide!
      rw [hm]
      have := floatToInt_ceil_bounds arch 0 0 (by simp) (by norm_num)
      omega

/-- The amended C19 on an item with a description of three spaces and the
price `6.49`. -/
theorem itemPoints_of_empty_description_witness :
    itemPoints amd64 ⟨"   ".toList, "6.49".toList⟩ = 2 :=
  ((itemPoints_of_empty_description amd64 ⟨"   ".toList, "6.49".toList⟩).2
    (((itemPoints_of_empty_description amd64 ⟨"   ".toList, "6.49".toList⟩).1 (by decide)))).2.1
    rfl

/-! ## Claim C20 -/

/-- C20: for every total, whenever rule 2 adds its 50 points rule 3 adds its
25 points too, so the two rules together add 0, 25 or 75 points and never
exactly 50. -/
theorem quarterPoints_of_roundDollarPoints (total : GoString) :
    (roundDollarPoints total = 50 → quarterPoints total = 25)
      ∧ (roundDollarPoints total + quarterPoints total = 0
          ∨ roundDollarPoints total + quarterPoints total = 25
          ∨ roundDollarPoints total + quarterPoints total = 75)
      ∧ roundDollarPoints total + quarterPoints total ≠ 50 := by
  have key : (ParseFloat total).1.isWhole = true → (ParseFloat total).1.isQuarterMultiple = true := by
    cases (ParseFloat total).1 with
    | nan => intro h; cases h
    | inf s => intro h; cases h
    | fin z =>
        simp only [F64.isWhole, F64.isQuarterMultiple, decide_eq_true_eq]
        intro h
        have hd : ((2 ^ 1072 : Nat) : Int) ∣ ((2 ^ 1074 : Nat) : Int) :=
          Int.natCast_dvd_natCast.2 (pow_dvd_pow 2 (by norm_num))
        exact dvd_trans hd h
  rw [roundDollarPoints_eq, quarterPoints_eq]
  by_cases hw : (ParseFloat total).1.isWhole = true
  · simp [hw, key hw]
  · by_cases hq : (ParseFloat total).1.isQuarterMultiple = true
    · simp [hw, hq]
    · simp [hw, hq]

/-- C20 on the total `9.00`: it gets the 50 points, hence the 25 as well. -/
theorem quarterPoints_of_roundDollarPoints_witness :
    roundDollarPoints "9.00".toList = 50 ∧ quarterPoints "9.00".toList = 25 :=
  ⟨by decide!, (quarterPoints_of_roundDollarPoints "9.00".toList).1 (by decide!)⟩

end Receipts
